import Mathlib

/-!
# Verification of `LoadIacDir` (pkg/iac-providers/terraform/v12/load-dir.go)

`LoadIacDir` resolves a root Terraform directory into the flat list of the
managed resources declared in it and in every descendant module.

The development embeds the function shallowly:

* Go strings are `String`, Go `int` is `Int` wrapped to 64 bits (`wrapInt`);
* the collaborators the function calls but does not define (`utils.GetAbsPath`,
  the parser's `IsConfigDir` and `LoadConfigDir`, `filepath.Join`,
  `CreateResourceConfig`) are fields of an environment `Env`;
* every call to a collaborator is recorded in a trace of `Event`s, so that
  "this call is never made" is a statement about the trace; what the function
  writes to the log is not part of what it returns and is left out;
* `current.Module.ManagedResources` and `current.Children` are Go maps
  (`map[string]*Resource` and `map[string]*Config` in the `configs` package),
  and the order in which `range` visits a map is chosen by the Go runtime: it
  is the `RangeOrder` component of the environment;
* the closure handed to `BuildConfig` is `moduleWalker`, with the captured
  counter `versionI` and the trace as explicit state;
* `BuildConfig` itself belongs to the `configs` package; its model recurses
  into the modules the walker loads and takes a bound `fuel` on the nesting
  depth; `NestedWithin` says, of the directories alone, that the module calls
  nest fewer than `d` deep, and `BuildConfig_returns`, `LoadIacDir_returns`
  and `LoadIacDir_fuel_le` show that any fuel from `d` on gives the result.
-/

namespace Tfv12

/-! ## Fragments of the Go runtime used by the file -/

/-- Go's `int` on the 64-bit platforms the tool is built for: two's complement
wrap-around into `[-2^63, 2^63)`. -/
def wrapInt (x : Int) : Int := (x + 2 ^ 63) % 2 ^ 64 - 2 ^ 63

/-- An operand of `fmt.Sprintf`: the file only passes strings and ints. -/
inductive Arg where
  | str (s : String)
  | int (i : Int)

/-- Go type name of an operand, as printed in `fmt` error markers. -/
def Arg.typeName : Arg → String
  | .str _ => "string"
  | .int _ => "int"

/-- Default rendering of an operand: the `%v` form. -/
def Arg.render : Arg → String
  | .str s => s
  | .int i => toString i

/-- One verb applied to one operand: `%s`/`%v` on a string, `%d`/`%v` on an
int; a verb that does not fit the operand prints `%!verb(type=value)`. -/
def fmtVerb (verb : Char) (a : Arg) : List Char :=
  match a with
  | .str s =>
    if verb = 's' ∨ verb = 'v' then s.data
    else "%!".data ++ verb :: "(string=".data ++ s.data ++ ")".data
  | .int i =>
    if verb = 'd' ∨ verb = 'v' then (toString i).data
    else "%!".data ++ verb :: "(int=".data ++ (toString i).data ++ ")".data

/-- Operands left over once the format is consumed: `%!(EXTRA type=value, ...)`. -/
def fmtExtra : List Arg → List Char
  | [] => []
  | a :: as =>
    "%!(EXTRA ".data
      ++ (", ".intercalate ((a :: as).map fun x => x.typeName ++ "=" ++ x.render)).data
      ++ ")".data

/-- The formatting loop of `fmt` (`doPrintf`) for verbs without flags, width or
precision: `%%` prints a percent sign, a verb with no operand left prints
`%!verb(MISSING)`, a lone `%` at the end prints `%!(NOVERB)`. -/
def doPrintf : List Char → List Arg → List Char
  | [], args => fmtExtra args
  | [c], args => if c = '%' then "%!(NOVERB)".data else c :: fmtExtra args
  | c :: verb :: rest, args =>
    if c = '%' then
      if verb = '%' then '%' :: doPrintf rest args
      else
        match args with
        | [] => "%!".data ++ verb :: "(MISSING)".data ++ doPrintf rest []
        | a :: args1 => fmtVerb verb a ++ doPrintf rest args1
    else c :: doPrintf (verb :: rest) args

/-- Go `fmt.Sprintf`. -/
def Sprintf (format : String) (args : List Arg) : String :=
  String.mk (doPrintf format.data args)

/-- Go `fmt.Errorf`: the error whose message is the formatted string. -/
def Errorf (format : String) (args : List Arg) : String :=
  Sprintf format args

/-- Splitting a character sequence around every occurrence of a separator. -/
def splitOn (sep : Char) : List Char → List (List Char)
  | [] => [[]]
  | c :: cs =>
    if c = sep then [] :: splitOn sep cs
    else
      match splitOn sep cs with
      | [] => [[c]]
      | w :: ws => (c :: w) :: ws

/-- Go `strings.Split` for a one-character separator. -/
def Split (s : String) (sep : Char) : List String :=
  (splitOn sep s.data).map String.mk

/-! ## go-version -/

/-- A parsed version, `version.Version`: its numeric segments. -/
structure Version where
  segments : List Nat
  deriving DecidableEq, Repr

/-- Order of versions: segment by segment, as `Version.Compare` does. -/
def Version.lt (a b : Version) : Prop := List.Lex (fun x y => x < y) a.segments b.segments

instance (a b : Version) : Decidable (Version.lt a b) := by
  unfold Version.lt
  infer_instance

/-- Segments joined by dots, as `Version.String` prints a plain version. -/
def Version.String (v : Version) : String :=
  ".".intercalate (v.segments.map toString)

/-- One numeric segment, `strconv.ParseInt(str, 10, 64)`: a non-empty run of
decimal digits whose value fits a signed 64-bit integer. -/
def parseSegment (cs : List Char) : Option Nat :=
  if cs ≠ [] ∧ cs.all Char.isDigit = true then
    let n := cs.foldl (fun a c => 10 * a + (c.toNat - 48)) 0
    if n < 2 ^ 63 then some n else none
  else none

/-- Every segment in turn; one segment that does not parse fails the whole. -/
def parseSegments : List (List Char) → Option (List Nat)
  | [] => some []
  | s :: rest =>
    match parseSegment s, parseSegments rest with
    | some n, some ns => some (n :: ns)
    | _, _ => none

/-- Fewer than three segments are padded with zeros. -/
def padSegments (segs : List Nat) : List Nat :=
  segs ++ List.replicate (3 - segs.length) 0

/-- The `version.NewVersion` of go-version on plain dotted-decimal strings
(no prerelease or metadata part): `none` is the nil version returned with an
error. -/
def NewVersion (v : String) : Option Version :=
  (parseSegments (splitOn '.' v.data)).map fun segs => ⟨padSegments segs⟩

/-! ## hcl diagnostics -/

/-- Severity of a diagnostic, `hcl.DiagnosticSeverity`. -/
inductive DiagnosticSeverity where
  | DiagError
  | DiagWarning
  deriving DecidableEq, Repr

/-- One `hcl.Diagnostic`. -/
structure Diagnostic where
  Severity : DiagnosticSeverity
  Summary : String
  deriving DecidableEq, Repr

/-- A list of diagnostics, `hcl.Diagnostics`. -/
abbrev Diagnostics := List Diagnostic

/-- Whether some diagnostic is an error, `Diagnostics.HasErrors`. -/
def Diagnostics.HasErrors (diags : Diagnostics) : Bool :=
  diags.any fun d => decide (d.Severity = DiagnosticSeverity.DiagError)

/-! ## The `configs` data model -/

/-- A `module` block, `configs.ModuleCall`: its name and declared source. -/
structure ModuleCall where
  Name : String
  SourceAddr : String
  deriving DecidableEq, Repr

/-- The declarations of one directory, `configs.Module`. `ManagedResources` is
a Go map keyed by resource address; the list holds its values in declaration
order. `ModuleCalls` is a Go map keyed by call name; the list holds its values
in ascending name order, the order in which `BuildConfig` visits them. -/
structure Module (R : Type) where
  ManagedResources : List R
  ModuleCalls : List ModuleCall

/-- A node of the configuration tree, `configs.Config`: the path of the node
from the root (the names of the calls leading to it), the module of the node
and its children, a Go map keyed by call name whose values are listed in the
order the calls were resolved. -/
inductive Config (R : Type) where
  | mk (Path : List String) (Module : Module R) (Children : List (Config R))

/-- What `BuildConfig` asks the walker to resolve, `configs.ModuleRequest`. -/
structure ModuleRequest where
  Name : String
  Path : List String
  SourceAddr : String
  deriving DecidableEq, Repr

/-- The dotted form of a module path, `addrs.Module.String`. -/
def ModuleRequest.PathString (req : ModuleRequest) : String :=
  ".".intercalate req.Path

namespace Config
variable {R : Type}

/-- The path of a node. -/
def Path : Config R → List String
  | mk p _ _ => p

/-- The module of a node. -/
def Module : Config R → Tfv12.Module R
  | mk _ m _ => m

/-- The children of a node. -/
def Children : Config R → List (Config R)
  | mk _ _ cs => cs

mutual
/-- Number of nodes of a tree. -/
def size : Config R → Nat
  | mk _ _ cs => 1 + sizeList cs
/-- Number of nodes of a forest. -/
def sizeList : List (Config R) → Nat
  | [] => 0
  | c :: cs => size c + sizeList cs
end

mutual
/-- Number of levels of a tree. -/
def height : Config R → Nat
  | mk _ _ cs => 1 + heightList cs
/-- Number of levels of a forest. -/
def heightList : List (Config R) → Nat
  | [] => 0
  | c :: cs => max (height c) (heightList cs)
end

mutual
/-- Every managed resource declared on some node of a tree (node first, then
its subtrees). -/
def allResources : Config R → List R
  | mk _ m cs => m.ManagedResources ++ allResourcesList cs
/-- Every managed resource declared in a forest. -/
def allResourcesList : List (Config R) → List R
  | [] => []
  | c :: cs => allResources c ++ allResourcesList cs
end

mutual
/-- Sum, over every node of the tree, of the number of managed resources
declared on that node. -/
def countResources : Config R → Nat
  | mk _ m cs => m.ManagedResources.length + countResourcesList cs
/-- Sum of `countResources` over a forest. -/
def countResourcesList : List (Config R) → Nat
  | [] => 0
  | c :: cs => countResources c + countResourcesList cs
end

end Config

/-! ## Iteration order of Go maps -/

/-- The order in which `range` visits the two maps of each node during one run
of the collector: `resources current` is `current.Module.ManagedResources` and
`children current` is `current.Children`, each in the order of the visit. The
Go runtime may visit the entries of a map in any order, and a different one
for every node; whatever it does, it visits every entry exactly once. -/
structure RangeOrder (R : Type) where
  resources : Config R → List R
  children : Config R → List (Config R)
  resources_perm : ∀ c, (resources c).Perm c.Module.ManagedResources
  children_perm : ∀ c, (children c).Perm c.Children

/-- The runtime happens to visit every map in declaration order. -/
def RangeOrder.declared (R : Type) : RangeOrder R :=
  ⟨fun c => c.Module.ManagedResources, fun c => c.Children,
    fun _ => List.Perm.refl _, fun _ => List.Perm.refl _⟩

/-- The runtime happens to visit every map in the opposite order. -/
def RangeOrder.reversed (R : Type) : RangeOrder R :=
  ⟨fun c => c.Module.ManagedResources.reverse, fun c => c.Children.reverse,
    fun _ => List.reverse_perm _, fun _ => List.reverse_perm _⟩

/-! ## Environment, trace and results -/

/-- A call that leaves the function. -/
inductive Event (R : Type) where
  | GetAbsPath (rootDir : String)
  | IsConfigDir (dir : String)
  | LoadConfigDir (dir : String)
  | LoadModule (req : ModuleRequest)
  | CreateResourceConfig (r : R)

/-- The collaborators of `LoadIacDir`. -/
structure Env (R O : Type) where
  GetAbsPath : String → Except String String
  IsConfigDir : String → Bool
  LoadConfigDir : String → Option (Module R) × Diagnostics
  Join : String → String → String
  CreateResourceConfig : R → Except String O
  range : RangeOrder R

/-- What `LoadIacDir` hands back: the named result `allResourcesConfig`, the
error (`none` is the nil error, otherwise its message), and the calls made. -/
structure Outcome (R O : Type) where
  allResourcesConfig : List O
  err : Option String
  trace : List (Event R)

/-- Ways of not returning. -/
inductive Abort where
  | nilDereference
  | outOfFuel
  deriving DecidableEq, Repr

/-- State captured by the walker closure: the counter `versionI` and the
trace. -/
structure WalkerState (R : Type) where
  versionI : Int
  trace : List (Event R)

/-! ## The module walker (the closure passed to `BuildConfig`) -/

/-- The loop `for _, subPath := range pathArr` of the walker. -/
def joinSubPaths (join : String → String → String) : String → List String → String
  | pathToModule, [] => pathToModule
  | pathToModule, subPath :: rest => joinSubPaths join (join pathToModule subPath) rest

/-- The directory the walker computes for a request. -/
def pathToModule {R O : Type} (env : Env R O) (absRootDir : String) (req : ModuleRequest) :
    String :=
  joinSubPaths env.Join absRootDir (Split req.PathString '.')

/-- The `ModuleWalkerFunc` closure of `LoadIacDir`. -/
def moduleWalker {R O : Type} (env : Env R O) (absRootDir : String) (req : ModuleRequest)
    (st : WalkerState R) :
    (Option (Module R) × Option Version × Diagnostics) × WalkerState R :=
  let dir := pathToModule env absRootDir req
  let loaded := env.LoadConfigDir dir
  let version := NewVersion (Sprintf "1.0.%d" [Arg.int st.versionI])
  ((loaded.1, version, loaded.2),
    ⟨wrapInt (st.versionI + 1), st.trace ++ [Event.LoadModule req, Event.LoadConfigDir dir]⟩)

/-- Successive invocations of the walker on a sequence of requests: the
results in invocation order and the final state. -/
def walkerRun {R O : Type} (env : Env R O) (absRootDir : String) :
    List ModuleRequest → WalkerState R →
      List (Option (Module R) × Option Version × Diagnostics) × WalkerState R
  | [], st => ([], st)
  | req :: reqs, st =>
    let r := moduleWalker env absRootDir req st
    let rest := walkerRun env absRootDir reqs r.2
    (r.1 :: rest.1, rest.2)

/-- State of the walker when `LoadIacDir` creates it (`versionI := 0`). -/
def walkerInit {R : Type} (trace : List (Event R)) : WalkerState R := ⟨0, trace⟩

/-! ## `configs.BuildConfig` -/

/-- Modelled from the spec: the recursion of the graph builder (section 4.4),
`buildChildModules` in the configs package, which is not part of the source
file. For every module call of the parent, in order, it invokes the walker
once on the request made of the call name, the path of the parent extended by
that name and the declared source, and keeps the diagnostics the walker
returned; when the walker returned a module it links it as a child under the
parent and descends into it. A walker failure makes the returned diagnostics
hold an error, which fails the build as a whole; the walk goes on over the
remaining calls to collect their diagnostics. `fuel` bounds the nesting depth;
`none` means the bound was reached. -/
def buildChildModules {R : Type}
    (walker : ModuleRequest → WalkerState R →
      (Option (Module R) × Option Version × Diagnostics) × WalkerState R) :
    Nat → List String → Module R → WalkerState R →
      Option (List (Config R) × Diagnostics × WalkerState R)
  | 0, _, _, _ => none
  | fuel + 1, parentPath, parent, st =>
    parent.ModuleCalls.foldlM
      (fun (acc : List (Config R) × Diagnostics × WalkerState R) call =>
        let path := parentPath ++ [call.Name]
        let req : ModuleRequest := ⟨call.Name, path, call.SourceAddr⟩
        let r := walker req acc.2.2
        let diags := acc.2.1 ++ r.1.2.2
        match r.1.1 with
        | none => some (acc.1, diags, r.2)
        | some m =>
          match buildChildModules walker fuel path m r.2 with
          | none => none
          | some sub => some (acc.1 ++ [Config.mk path m sub.1], diags ++ sub.2.1, sub.2.2))
      ([], [], st)

/-- Modelled from the spec: the graph builder (sections 4.4 and 6),
`configs.BuildConfig`, which is not part of the source file: from the root
unit and the walker it returns the tree rooted at the root module together
with the diagnostics of every walker invocation. A nil root module is
dereferenced. -/
def BuildConfig {R : Type} (fuel : Nat) (root : Option (Module R))
    (walker : ModuleRequest → WalkerState R →
      (Option (Module R) × Option Version × Diagnostics) × WalkerState R)
    (st : WalkerState R) : Except Abort (Config R × Diagnostics × WalkerState R) :=
  match root with
  | none => .error Abort.nilDereference
  | some m =>
    match buildChildModules walker fuel [] m st with
    | none => .error Abort.outOfFuel
    | some r => .ok (Config.mk [] m r.1, r.2.1, r.2.2)

/-! ## The resource collector (the breadth-first loop of `LoadIacDir`) -/

/-- The inner loop over `current.Module.ManagedResources`, the resources
being visited in the order given: every resource is converted and appended;
the first conversion error returns from `LoadIacDir` with the list built so
far and the error. -/
def convertAll {R O : Type} (conv : R → Except String O) :
    List R → List O → List (Event R) → Outcome R O
  | [], allResourcesConfig, trace => ⟨allResourcesConfig, none, trace⟩
  | managedResource :: rest, allResourcesConfig, trace =>
    match conv managedResource with
    | .error _ =>
      ⟨allResourcesConfig, some (Errorf "failed to create ResourceConfig" []),
        trace ++ [Event.CreateResourceConfig managedResource]⟩
    | .ok resourceConfig =>
      convertAll conv rest (allResourcesConfig ++ [resourceConfig])
        (trace ++ [Event.CreateResourceConfig managedResource])

/-- The loop `for len(configsQ) > 0`: pop the first node, convert its
resources, push its children at the back, both in the order `range` visits
them. -/
def bfsLoop {R O : Type} (ord : RangeOrder R) (conv : R → Except String O) :
    List (Config R) → List O → List (Event R) → Outcome R O
  | [], allResourcesConfig, trace => ⟨allResourcesConfig, none, trace⟩
  | current :: configsQ, allResourcesConfig, trace =>
    match convertAll conv (ord.resources current) allResourcesConfig trace with
    | ⟨out, some e, tr⟩ => ⟨out, some e, tr⟩
    | ⟨out, none, tr⟩ => bfsLoop ord conv (configsQ ++ ord.children current) out tr
termination_by q => Config.sizeList q
decreasing_by
  simp_wf
  have happ : ∀ l l1 : List (Config R),
      Config.sizeList (l ++ l1) = Config.sizeList l + Config.sizeList l1 := by
    intro l l1
    induction l with
    | nil => simp [Config.sizeList]
    | cons x l ih => simp [Config.sizeList, ih]; omega
  have hperm : ∀ l l1 : List (Config R), l.Perm l1 →
      Config.sizeList l = Config.sizeList l1 := by
    intro l l1 h
    induction h with
    | nil => rfl
    | cons x _ ih => simp [Config.sizeList, ih]
    | swap x y l => simp [Config.sizeList]; omega
    | trans _ _ ih1 ih2 => exact ih1.trans ih2
  rw [happ, hperm _ _ (ord.children_perm _)]
  cases current with
  | mk p m cs => simp [Config.sizeList, Config.size, Config.Children]; omega

/-- The collector of `LoadIacDir`: the loop started on the queue holding the
root of the unified configuration, with an empty result list. -/
def resourceCollector {R O : Type} (env : Env R O) (unified : Config R)
    (trace : List (Event R)) : Outcome R O :=
  bfsLoop env.range env.CreateResourceConfig [unified] [] trace

/-! ## Breadth-first order, as a specification -/

section
variable {R O : Type}

/-- Sequencing of two stages of the collector: an error ends the run. -/
def Outcome.andThen (o : Outcome R O) (k : List O → List (Event R) → Outcome R O) : Outcome R O :=
  match o.err with
  | some _ => o
  | none => k o.allResourcesConfig o.trace

/-- The nodes at depth `d` below a list of roots, left to right: depth 0 is the
roots themselves, depth `d + 1` is the children of the nodes at depth `d`. -/
def level (ord : RangeOrder R) : Nat → List (Config R) → List (Config R)
  | 0, q => q
  | d + 1, q => (level ord d q).flatMap ord.children

/-- Breadth-first order of the nodes of a tree: all nodes at depth `d` before
any node at depth `d + 1`. -/
def breadthFirst (ord : RangeOrder R) (t : Config R) : List (Config R) :=
  (List.range t.height).flatMap fun d => level ord d [t]

/-- The managed resources of a tree in breadth-first order of their nodes. -/
def bfsResources (ord : RangeOrder R) (t : Config R) : List R :=
  (breadthFirst ord t).flatMap ord.resources

end

/-! ## `LoadIacDir` -/

/-- The function `LoadIacDir`. `fuel` bounds the nesting depth explored by
`BuildConfig`. -/
def LoadIacDir {R O : Type} (env : Env R O) (fuel : Nat) (rootDir : String) :
    Except Abort (Outcome R O) :=
  match env.GetAbsPath rootDir with
  | .error err => .ok ⟨[], some err, [Event.GetAbsPath rootDir]⟩
  | .ok absRootDir =>
    let trace1 := [Event.GetAbsPath rootDir, Event.IsConfigDir absRootDir]
    if !env.IsConfigDir absRootDir then
      let errMsg := Sprintf "directory '%s' has no terraform config files" []
      .ok ⟨[], some (Errorf errMsg []), trace1⟩
    else
      let trace2 := trace1 ++ [Event.LoadConfigDir absRootDir]
      let loaded := env.LoadConfigDir absRootDir
      if Diagnostics.HasErrors loaded.2 then
        .ok ⟨[], some (Errorf "failed to load terraform allResourcesConfig dir" []), trace2⟩
      else
        match BuildConfig fuel loaded.1 (moduleWalker env absRootDir) (walkerInit trace2) with
        | .error a => .error a
        | .ok (unified, diags, st) =>
          if Diagnostics.HasErrors diags then
            .ok ⟨[], some (Errorf "failed to build terraform allResourcesConfig" []), st.trace⟩
          else
            .ok (resourceCollector env unified st.trace)

/-! ## Concrete inputs used by the examples -/

/-- A conversion that rejects the resource `0` and sends `n` to `n + 100`. -/
def demoConvert (n : Nat) : Except String Nat :=
  if n = 0 then .error "unsupported resource" else .ok (n + 100)

/-- A small file system: `/proj` declares resources 1 and 2 and calls the
module `vpc` from a remote source, `/proj/vpc` declares resource 3, `/half`
declares resources 1 and 0, `/missing` declares resource 4 and calls the
module `db` whose directory does not exist; no other directory can be
loaded. -/
def demoLoadConfigDir (dir : String) : Option (Module Nat) × Diagnostics :=
  if dir = "/proj" then
    (some ⟨[1, 2], [⟨"vpc", "git::https://example.com/vpc.git"⟩]⟩, [])
  else if dir = "/proj/vpc" then (some ⟨[3], []⟩, [])
  else if dir = "/half" then (some ⟨[1, 0], []⟩, [])
  else if dir = "/missing" then (some ⟨[4], [⟨"db", "./db"⟩]⟩, [])
  else (none, [⟨DiagnosticSeverity.DiagError, "Failed to read module directory"⟩])

/-- The environment of the examples; `/empty` is the only directory without
configuration files, and the join of two path elements drops an empty second
element, as `filepath.Join` does. -/
def demoEnv (ord : RangeOrder Nat) : Env Nat Nat where
  GetAbsPath := fun rootDir => .ok ("/" ++ rootDir)
  IsConfigDir := fun dir => dir ≠ "/empty"
  LoadConfigDir := demoLoadConfigDir
  Join := fun a b => if b = "" then a else a ++ "/" ++ b
  CreateResourceConfig := demoConvert
  range := ord

/-- The configuration tree of `/proj`: a root with resources 1 and 2 and one
child with resource 3. -/
def demoTree : Config Nat :=
  Config.mk [] ⟨[1, 2], [⟨"vpc", "git::https://example.com/vpc.git"⟩]⟩
    [Config.mk ["vpc"] ⟨[3], []⟩ []]

/-- The configuration tree of `/half`: a root without children declaring the
resources 1 and 0, of which 0 does not convert. -/
def demoHalf : Config Nat := Config.mk [] ⟨[1, 0], []⟩ []

/-- A root without resources whose children `a` and `b` declare the resources
1 and 2. -/
def demoFork : Config Nat :=
  Config.mk [] ⟨[], [⟨"a", "./a"⟩, ⟨"b", "./b"⟩]⟩
    [Config.mk ["a"] ⟨[1], []⟩ [], Config.mk ["b"] ⟨[2], []⟩ []]

/-- Three module requests, as `BuildConfig` makes them for the calls `a`, `b`
and, inside `b`, `c`. -/
def demoRequests : List ModuleRequest :=
  [⟨"a", ["a"], "./a"⟩, ⟨"b", ["b"], "./b"⟩, ⟨"c", ["b", "c"], "./c"⟩]

/-- The calls made by `LoadIacDir` on `proj` before the collector starts. -/
def demoProjTrace : List (Event Nat) :=
  [Event.GetAbsPath "proj", Event.IsConfigDir "/proj", Event.LoadConfigDir "/proj",
    Event.LoadModule ⟨"vpc", ["vpc"], "git::https://example.com/vpc.git"⟩,
    Event.LoadConfigDir "/proj/vpc"]

/-- The calls made by `LoadIacDir` on `half` before the collector starts. -/
def demoHalfTrace : List (Event Nat) :=
  [Event.GetAbsPath "half", Event.IsConfigDir "/half", Event.LoadConfigDir "/half"]

/-- The module of `/missing`: resource 4 and a call of the module `db`. -/
def demoMissingRoot : Module Nat := ⟨[4], [⟨"db", "./db"⟩]⟩

/-- The tree built for `/missing`: the module `db` could not be linked. -/
def demoMissingTree : Config Nat := Config.mk [] ⟨[4], [⟨"db", "./db"⟩]⟩ []

/-! ## Notions used in the statements -/

/-- Whether a declared module source is a local filesystem-relative path: it
starts with `./` or `../` (or their backslash forms). -/
def localSourceAddr (addr : String) : Bool :=
  ["./", "../", ".\\", "..\\"].any fun p => p.data.isPrefixOf addr.data

/-- The request `BuildConfig` makes for a module call declared by the module
at `path`. -/
def requestFor (path : List String) (call : ModuleCall) : ModuleRequest :=
  ⟨call.Name, path ++ [call.Name], call.SourceAddr⟩

/-- The module calls below a module nest fewer than `d` deep: every directory
the walker computes for a call of the module either yields no module or
yields one whose own calls nest fewer than `d - 1` deep. This is a property of
the directories alone: the module-call graph under the module is finite. -/
def NestedWithin {R O : Type} (env : Env R O) (absRootDir : String) : Nat → List String → Module R → Prop
  | 0, _, _ => False
  | d + 1, path, m =>
    ∀ call ∈ m.ModuleCalls, ∀ sub,
      (env.LoadConfigDir (pathToModule env absRootDir (requestFor path call))).1 = some sub →
        NestedWithin env absRootDir d (path ++ [call.Name]) sub

/-- The requests for the module calls reachable from the module at `path`:
those of its own calls and, for every call whose directory yields a module,
those reachable from that module. -/
inductive CallBelow {R O : Type} (env : Env R O) (absRootDir : String) :
    List String → Module R → ModuleRequest → Prop where
  | direct (path : List String) (m : Module R) (call : ModuleCall) :
      call ∈ m.ModuleCalls → CallBelow env absRootDir path m (requestFor path call)
  | nested (path : List String) (m : Module R) (call : ModuleCall) (sub : Module R)
      (req : ModuleRequest) :
      call ∈ m.ModuleCalls →
      (env.LoadConfigDir (pathToModule env absRootDir (requestFor path call))).1 = some sub →
      CallBelow env absRootDir (path ++ [call.Name]) sub req →
      CallBelow env absRootDir path m req

section
variable {R O : Type}

/-- The inner loop over a concatenation: the first part, then, unless it
failed, the second. -/
theorem convertAll_append (conv : R → Except String O) (l1 l2 : List R) (acc : List O)
    (tr : List (Event R)) :
    convertAll conv (l1 ++ l2) acc tr =
      (convertAll conv l1 acc tr).andThen fun out t => convertAll conv l2 out t := by
  induction l1 generalizing acc tr with
  | nil => simp [convertAll, Outcome.andThen]
  | cons r rs ih =>
    simp only [List.cons_append, convertAll]
    cases conv r with
    | error e => simp [Outcome.andThen]
    | ok o => simpa using ih _ _

theorem bfsLoop_nil (ord : RangeOrder R) (conv : R → Except String O) (acc : List O)
    (tr : List (Event R)) : bfsLoop ord conv [] acc tr = ⟨acc, none, tr⟩ := by
  rw [bfsLoop]

/-- One iteration of the outer loop. -/
theorem bfsLoop_cons (ord : RangeOrder R) (conv : R → Except String O) (c : Config R)
    (q : List (Config R)) (acc : List O) (tr : List (Event R)) :
    bfsLoop ord conv (c :: q) acc tr =
      (convertAll conv (ord.resources c) acc tr).andThen fun out t =>
        bfsLoop ord conv (q ++ ord.children c) out t := by
  rw [bfsLoop]
  simp only [Outcome.andThen]
  split <;> simp_all

theorem Outcome.andThen_assoc (o : Outcome R O) (k1 k2 : List O → List (Event R) → Outcome R O) :
    (o.andThen k1).andThen k2 = o.andThen fun out t => (k1 out t).andThen k2 := by
  unfold Outcome.andThen
  cases h : o.err <;> simp [h]

/-- The outer loop on a queue `q ++ r`: the resources of the nodes of `q` in
turn, then the loop on `r` followed by the children of the nodes of `q`. -/
theorem bfsLoop_append (ord : RangeOrder R) (conv : R → Except String O)
    (q r : List (Config R)) (acc : List O) (tr : List (Event R)) :
    bfsLoop ord conv (q ++ r) acc tr =
      (convertAll conv (q.flatMap ord.resources) acc tr).andThen fun out t =>
        bfsLoop ord conv (r ++ q.flatMap ord.children) out t := by
  induction q generalizing r acc tr with
  | nil => simp [convertAll, Outcome.andThen]
  | cons c q ih =>
    simp only [List.cons_append, List.flatMap_cons, bfsLoop_cons, convertAll_append,
      Outcome.andThen_assoc]
    congr 1
    funext out t
    rw [List.append_assoc, ih]
    simp [List.append_assoc]

theorem Config.heightList_append (l l1 : List (Config R)) :
    Config.heightList (l ++ l1) = max (Config.heightList l) (Config.heightList l1) := by
  induction l with
  | nil => simp [Config.heightList]
  | cons x l ih => simp [Config.heightList, ih, max_assoc]

theorem Config.heightList_perm {l l1 : List (Config R)} (h : l.Perm l1) :
    Config.heightList l = Config.heightList l1 := by
  induction h with
  | nil => rfl
  | cons x _ ih => simp [Config.heightList, ih]
  | swap x y l => simp only [Config.heightList]; omega
  | trans _ _ ih1 ih2 => exact ih1.trans ih2

theorem Config.height_eq (ord : RangeOrder R) (c : Config R) :
    c.height = 1 + Config.heightList (ord.children c) := by
  have h := Config.heightList_perm (ord.children_perm c)
  cases c with
  | mk p m cs =>
    simp only [Config.Children] at h
    simp [Config.height, h]

theorem Config.heightList_flatMap (ord : RangeOrder R) (q : List (Config R)) :
    Config.heightList (q.flatMap ord.children) = Config.heightList q - 1 := by
  induction q with
  | nil => simp [Config.heightList]
  | cons c q ih =>
    simp only [List.flatMap_cons, Config.heightList_append, Config.heightList, ih,
      Config.height_eq ord c]
    omega

theorem Config.heightList_eq_zero {q : List (Config R)} (h : Config.heightList q = 0) :
    q = [] := by
  cases q with
  | nil => rfl
  | cons c q =>
    cases c with
    | mk p m cs => simp [Config.heightList, Config.height] at h

/-- The nodes at depth `d + 1` below `q` are the nodes at depth `d` below the
children of `q`. -/
theorem level_succ (ord : RangeOrder R) (d : Nat) (q : List (Config R)) :
    level ord (d + 1) q = level ord d (q.flatMap ord.children) := by
  induction d with
  | zero => simp [level]
  | succ d ih => rw [level, ih, level]

/-- The outer loop converts the resources level by level: the queue
discipline visits all nodes at depth `d` before any node at depth `d + 1`. -/
theorem bfsLoop_eq_levels (ord : RangeOrder R) (conv : R → Except String O) (h : Nat) :
    ∀ (q : List (Config R)) (acc : List O) (tr : List (Event R)), Config.heightList q ≤ h →
      bfsLoop ord conv q acc tr =
        convertAll conv ((List.range h).flatMap fun d => (level ord d q).flatMap ord.resources)
          acc tr := by
  induction h with
  | zero =>
    intro q acc tr hq
    have : q = [] := Config.heightList_eq_zero (by omega)
    subst this
    simp [bfsLoop_nil, convertAll]
  | succ h ih =>
    intro q acc tr hq
    have h1 := bfsLoop_append ord conv q [] acc tr
    simp only [List.append_nil, List.nil_append] at h1
    rw [h1, List.range_succ_eq_map, List.flatMap_cons, convertAll_append]
    congr 1
    funext out t
    rw [ih _ _ _ (by rw [Config.heightList_flatMap]; omega)]
    simp [List.flatMap_map, level_succ, Function.comp_def]

theorem Config.allResourcesList_append (l l1 : List (Config R)) :
    Config.allResourcesList (l ++ l1) =
      Config.allResourcesList l ++ Config.allResourcesList l1 := by
  induction l with
  | nil => simp [Config.allResourcesList]
  | cons x l ih => simp [Config.allResourcesList, ih]

theorem Config.allResourcesList_perm {l l1 : List (Config R)} (h : l.Perm l1) :
    (Config.allResourcesList l).Perm (Config.allResourcesList l1) := by
  induction h with
  | nil => exact List.Perm.refl _
  | cons x _ ih => exact List.Perm.append_left _ ih
  | swap x y l =>
    simp only [Config.allResourcesList, ← List.append_assoc]
    exact List.Perm.append_right _ List.perm_append_comm
  | trans _ _ ih1 ih2 => exact ih1.trans ih2

theorem Config.allResources_perm (ord : RangeOrder R) (c : Config R) :
    c.allResources.Perm (ord.resources c ++ Config.allResourcesList (ord.children c)) := by
  have h1 := ord.resources_perm c
  have h2 := ord.children_perm c
  cases c with
  | mk p m cs =>
    simp only [Config.Module, Config.Children] at h1 h2
    simp only [Config.allResources]
    exact List.Perm.append h1.symm (Config.allResourcesList_perm h2.symm)

theorem Config.allResourcesList_unfold (ord : RangeOrder R) (q : List (Config R)) :
    (Config.allResourcesList q).Perm
      (q.flatMap ord.resources ++ Config.allResourcesList (q.flatMap ord.children)) := by
  induction q with
  | nil => simp [Config.allResourcesList]
  | cons c q ih =>
    simp only [Config.allResourcesList, List.flatMap_cons, Config.allResourcesList_append]
    refine ((Config.allResources_perm ord c).append ih).trans ?_
    simp only [List.append_assoc]
    refine List.Perm.append_left _ ?_
    simp only [← List.append_assoc]
    exact List.Perm.append_right _ List.perm_append_comm

/-- The resources met level by level are, up to order, all the resources of
the forest. -/
theorem levels_perm (ord : RangeOrder R) (h : Nat) :
    ∀ q : List (Config R), Config.heightList q ≤ h →
      ((List.range h).flatMap fun d => (level ord d q).flatMap ord.resources).Perm
        (Config.allResourcesList q) := by
  induction h with
  | zero =>
    intro q hq
    have : q = [] := Config.heightList_eq_zero (by omega)
    subst this
    simp [Config.allResourcesList]
  | succ h ih =>
    intro q hq
    rw [List.range_succ_eq_map, List.flatMap_cons]
    simp only [List.flatMap_map, level_succ, Function.comp_def]
    have h0 : level ord 0 q = q := rfl
    rw [h0]
    have hq1 : Config.heightList (q.flatMap ord.children) ≤ h := by
      rw [Config.heightList_flatMap]; omega
    refine (List.Perm.append_left _ (ih _ hq1)).trans ?_
    exact (Config.allResourcesList_unfold ord q).symm

/-- The resources in breadth-first order are, up to order, all the resources
of the tree, whatever the order of the visits. -/
theorem bfsResources_perm (ord : RangeOrder R) (t : Config R) :
    (bfsResources ord t).Perm t.allResources := by
  have h := levels_perm ord t.height [t] (by simp [Config.heightList])
  simp only [Config.allResourcesList, List.append_nil] at h
  simpa [bfsResources, breadthFirst, List.flatMap_assoc] using h

/-- The collector is the inner loop run over the resources of the tree in
breadth-first order. -/
theorem resourceCollector_eq (env : Env R O) (t : Config R) (tr : List (Event R)) :
    resourceCollector env t tr =
      convertAll env.CreateResourceConfig (bfsResources env.range t) [] tr := by
  rw [resourceCollector, bfsLoop_eq_levels env.range env.CreateResourceConfig t.height [t] [] tr
    (by simp [Config.heightList])]
  simp [bfsResources, breadthFirst, List.flatMap_assoc]

mutual
theorem Config.countResources_eq : ∀ c : Config R, c.countResources = c.allResources.length
  | .mk p m cs => by
    simp [Config.countResources, Config.allResources, Config.countResourcesList_eq cs]
theorem Config.countResourcesList_eq : ∀ q : List (Config R),
    Config.countResourcesList q = (Config.allResourcesList q).length
  | [] => rfl
  | c :: q => by
    simp [Config.countResourcesList, Config.allResourcesList, Config.countResources_eq c,
      Config.countResourcesList_eq q]
end

theorem Errorf_create :
    Errorf "failed to create ResourceConfig" [] = "failed to create ResourceConfig" := by
  decide

/-- The inner loop when every conversion succeeds, the converted form being
given by `f`. -/
theorem convertAll_ok (conv : R → Except String O) (f : R → O) (l : List R)
    (hok : ∀ r ∈ l, conv r = .ok (f r)) (acc : List O) (tr : List (Event R)) :
    convertAll conv l acc tr =
      ⟨acc ++ l.map f, none, tr ++ l.map Event.CreateResourceConfig⟩ := by
  induction l generalizing acc tr with
  | nil => simp [convertAll]
  | cons r rs ih =>
    have h1 := hok r (List.mem_cons_self _ _)
    simp only [convertAll, h1]
    rw [ih (fun x hx => hok x (List.mem_cons_of_mem _ hx))]
    simp

/-- The inner loop when every conversion succeeds. -/
theorem convertAll_all_ok (conv : R → Except String O) (l : List R)
    (hok : ∀ r ∈ l, ∃ o, conv r = .ok o) (acc : List O) (tr : List (Event R)) :
    convertAll conv l acc tr =
      ⟨acc ++ l.filterMap (fun x => (conv x).toOption), none,
        tr ++ l.map Event.CreateResourceConfig⟩ ∧
      (l.filterMap (fun x => (conv x).toOption)).length = l.length := by
  induction l generalizing acc tr with
  | nil => simp [convertAll]
  | cons r rs ih =>
    obtain ⟨o, ho⟩ := hok r (List.mem_cons_self _ _)
    have h1 := ih (fun x hx => hok x (List.mem_cons_of_mem _ hx))
    have hso : List.filterMap (fun x => (conv x).toOption) (r :: rs) =
        o :: List.filterMap (fun x => (conv x).toOption) rs := by
      simp [List.filterMap_cons, ho, Except.toOption]
    refine ⟨?_, ?_⟩
    · simp only [convertAll, ho]
      rw [(h1 _ _).1, hso]
      simp
    · rw [hso]
      simp [(h1 acc tr).2]

/-- The inner loop when some conversion fails: it stops at the first failing
resource and keeps what was converted before it. -/
theorem convertAll_some_error (conv : R → Except String O) (l : List R)
    (hbad : ∃ r ∈ l, ∃ e, conv r = .error e) (acc : List O) (tr : List (Event R)) :
    ∃ pre r post, l = pre ++ r :: post ∧ (∀ x ∈ pre, ∃ o, conv x = .ok o) ∧
      (∃ e, conv r = .error e) ∧
      convertAll conv l acc tr =
        ⟨acc ++ pre.filterMap (fun x => (conv x).toOption),
          some "failed to create ResourceConfig",
          tr ++ (pre ++ [r]).map Event.CreateResourceConfig⟩ := by
  induction l generalizing acc tr with
  | nil => simp at hbad
  | cons a l ih =>
    cases ha : conv a with
    | error e =>
      refine ⟨[], a, l, rfl, by simp, ⟨e, ha⟩, ?_⟩
      simp [convertAll, ha, Errorf_create]
    | ok o =>
      have hbad1 : ∃ r ∈ l, ∃ e, conv r = .error e := by
        obtain ⟨r, hr, e, hr1⟩ := hbad
        rcases List.mem_cons.mp hr with h | h
        · subst h; rw [ha] at hr1; cases hr1
        · exact ⟨r, h, e, hr1⟩
      obtain ⟨pre, r, post, h1, h2, h3, h4⟩ :=
        ih hbad1 (acc ++ [o]) (tr ++ [Event.CreateResourceConfig a])
      refine ⟨a :: pre, r, post, by simp [h1], ?_, h3, ?_⟩
      · intro x hx
        rcases List.mem_cons.mp hx with h | h
        · subst h; exact ⟨o, ha⟩
        · exact h2 x h
      · simp [convertAll, ha, h4, Except.toOption]

/-- Every resource of `/proj` converts. -/
theorem demoTree_converts :
    ∀ r ∈ demoTree.allResources, demoConvert r = .ok (r + 100) := by
  simp [demoTree, Config.allResources, Config.allResourcesList, demoConvert]

/-- Outcome of the collector on a tree where some conversion fails: the error
of the first failing resource in breadth-first order, and the converted
resources that precede it. -/
theorem resourceCollector_some_error (env : Env R O) (t : Config R) (trace : List (Event R))
    (hbad : ∃ r ∈ t.allResources, ∃ e, env.CreateResourceConfig r = .error e) :
    ∃ pre r post, bfsResources env.range t = pre ++ r :: post ∧
      (∀ x ∈ pre, ∃ o, env.CreateResourceConfig x = .ok o) ∧
      (∃ e, env.CreateResourceConfig r = .error e) ∧
      resourceCollector env t trace =
        ⟨pre.filterMap (fun x => (env.CreateResourceConfig x).toOption),
          some "failed to create ResourceConfig",
          trace ++ (pre ++ [r]).map Event.CreateResourceConfig⟩ ∧
      ((resourceCollector env t trace).allResourcesConfig).length = pre.length := by
  obtain ⟨r, hr, he⟩ := hbad
  obtain ⟨pre, r1, post, h1, h2, h3, h4⟩ :=
    convertAll_some_error env.CreateResourceConfig (bfsResources env.range t)
      ⟨r, (bfsResources_perm env.range t).mem_iff.mpr hr, he⟩ [] trace
  refine ⟨pre, r1, post, h1, h2, h3, ?_, ?_⟩
  · rw [resourceCollector_eq, h4]; simp
  · rw [resourceCollector_eq, h4]
    simpa using (convertAll_all_ok env.CreateResourceConfig pre h2 [] []).2

/-- Outcome of the collector on a tree where every conversion succeeds. -/
theorem resourceCollector_all_ok (env : Env R O) (t : Config R) (trace : List (Event R))
    (hok : ∀ r ∈ t.allResources, ∃ o, env.CreateResourceConfig r = .ok o) :
    resourceCollector env t trace =
        ⟨(bfsResources env.range t).filterMap (fun x => (env.CreateResourceConfig x).toOption),
          none, trace ++ (bfsResources env.range t).map Event.CreateResourceConfig⟩ ∧
      ((bfsResources env.range t).filterMap
        (fun x => (env.CreateResourceConfig x).toOption)).length = t.countResources := by
  have h := convertAll_all_ok env.CreateResourceConfig (bfsResources env.range t)
    (fun r hr => hok r ((bfsResources_perm env.range t).mem_iff.mp hr)) [] trace
  rw [resourceCollector_eq, h.1]
  simp [h.2, Config.countResources_eq, (bfsResources_perm env.range t).length_eq]

/-! ## Lemmas on the error messages and the walker -/

theorem Errorf_build :
    Errorf "failed to build terraform allResourcesConfig" [] =
      "failed to build terraform allResourcesConfig" := by
  decide

theorem Errorf_noConfig :
    Errorf (Sprintf "directory '%s' has no terraform config files" []) [] =
      "directory '%!!(MISSING)s(MISSING)' has no terraform config files" := by
  decide

/-- The only error the inner loop returns. -/
theorem convertAll_err (conv : R → Except String O) (l : List R) (acc : List O)
    (tr : List (Event R)) :
    (convertAll conv l acc tr).err = none ∨
      (convertAll conv l acc tr).err = some "failed to create ResourceConfig" := by
  induction l generalizing acc tr with
  | nil => simp [convertAll]
  | cons r rs ih =>
    cases h : conv r with
    | error e => simp [convertAll, h, Errorf_create]
    | ok o => simpa [convertAll, h] using ih _ _

/-- The loop of the walker is a left fold of the join. -/
theorem joinSubPaths_eq_foldl (join : String → String → String) (segs : List String)
    (root : String) : joinSubPaths join root segs = segs.foldl join root := by
  induction segs generalizing root with
  | nil => rfl
  | cons s segs ih => simp [joinSubPaths, ih]

theorem digitChar_spec : ∀ m < 10,
    (Nat.digitChar m).isDigit = true ∧ (Nat.digitChar m).toNat - 48 = m ∧
      Nat.digitChar m ≠ '.' := by
  decide

/-- The decimal digits printed for `n` are a non-empty run of digits whose
value is `n`. -/
theorem toDigitsCore_spec (fuel : Nat) : ∀ (n : Nat) (ds : List Char), n < fuel →
    ∃ pre, Nat.toDigitsCore 10 fuel n ds = pre ++ ds ∧ pre ≠ [] ∧
      (∀ c ∈ pre, c.isDigit = true ∧ c ≠ '.') ∧
      pre.foldl (fun a c => 10 * a + (c.toNat - 48)) 0 = n := by
  induction fuel with
  | zero => intro n ds h; omega
  | succ fuel ih =>
    intro n ds hn
    have hd := digitChar_spec (n % 10) (Nat.mod_lt _ (by norm_num))
    simp only [Nat.toDigitsCore]
    by_cases h0 : n / 10 = 0
    · refine ⟨[Nat.digitChar (n % 10)], by simp [h0], by simp, ?_, ?_⟩
      · intro c hc
        simp only [List.mem_singleton] at hc
        subst hc
        exact ⟨hd.1, hd.2.2⟩
      · simp only [List.foldl_cons, List.foldl_nil, hd.2.1]
        omega
    · have hlt : n / 10 < fuel := by omega
      obtain ⟨pre, h1, h2, h3, h4⟩ := ih (n / 10) (Nat.digitChar (n % 10) :: ds) hlt
      refine ⟨pre ++ [Nat.digitChar (n % 10)], by simp [h0, h1], by simp, ?_, ?_⟩
      · intro c hc
        rcases List.mem_append.mp hc with h | h
        · exact h3 c h
        · simp only [List.mem_singleton] at h
          subst h
          exact ⟨hd.1, hd.2.2⟩
      · simp only [List.foldl_append, List.foldl_cons, List.foldl_nil, h4, hd.2.1]
        omega

theorem splitOn_not_mem (sep : Char) (cs : List Char) (h : sep ∉ cs) :
    splitOn sep cs = [cs] := by
  induction cs with
  | nil => rfl
  | cons c cs ih =>
    have hc : c ≠ sep := fun e => h (by simp [e])
    have hcs : sep ∉ cs := fun e => h (List.mem_cons_of_mem _ e)
    simp [splitOn, hc, ih hcs]

/-- Parsing the decimal form of `k` gives `k` back. -/
theorem parseSegment_repr (k : Nat) (hk : k < 2 ^ 63) :
    parseSegment (toString k).data = some k ∧ '.' ∉ (toString k).data := by
  obtain ⟨pre, h1, h2, h3, h4⟩ := toDigitsCore_spec (k + 1) k [] (Nat.lt_succ_self k)
  have hdata : (toString k).data = pre := by
    show (Nat.toDigits 10 k) = pre
    simpa [Nat.toDigits] using h1
  rw [hdata]
  refine ⟨?_, fun hmem => (h3 _ hmem).2 rfl⟩
  have hall : pre.all Char.isDigit = true := by
    rw [List.all_eq_true]
    exact fun c hc => (h3 c hc).1
  simp only [parseSegment, h2, hall, h4, ne_eq, not_false_eq_true, and_self, if_true, hk]

/-- The version the walker builds when its counter is `k`. -/
theorem NewVersion_sprintf (k : Nat) (hk : k < 2 ^ 63) :
    NewVersion (Sprintf "1.0.%d" [Arg.int (k : Int)]) = some ⟨[1, 0, k]⟩ := by
  have h := parseSegment_repr k hk
  have hs : Sprintf "1.0.%d" [Arg.int (k : Int)] = String.mk ("1.0.".data ++ (toString k).data) := by
    simp [Sprintf, doPrintf, fmtVerb, fmtExtra]
    rfl
  rw [hs]
  have h10 : splitOn '.' ("1.0.".data ++ (toString k).data) =
      ['1'] :: ['0'] :: [(toString k).data] := by
    simp [splitOn, splitOn_not_mem _ _ h.2]
  have hp1 : parseSegment ['1'] = some 1 := by decide
  have hp0 : parseSegment ['0'] = some 0 := by decide
  show (parseSegments (splitOn '.' ("1.0.".data ++ (toString k).data))).map _ = _
  rw [h10]
  simp [parseSegments, hp1, hp0, h.1, padSegments]

theorem wrapInt_natCast (k : Nat) (hk : k < 2 ^ 63) : wrapInt (k : Int) = k := by
  unfold wrapInt
  omega

theorem moduleWalker_versionI (env : Env R O) (absRootDir : String) (req : ModuleRequest)
    (st : WalkerState R) :
    (moduleWalker env absRootDir req st).2.versionI = wrapInt (st.versionI + 1) := rfl

theorem wrapInt_succ (j : Nat) : wrapInt (wrapInt (j : Int) + 1) = wrapInt ((j + 1 : Nat) : Int) := by
  unfold wrapInt
  omega

/-- The versions returned by successive invocations, starting from a counter
`j`, and the counter after them. -/
theorem walkerRun_versions (env : Env R O) (absRootDir : String) (reqs : List ModuleRequest) :
    ∀ (j : Nat) (st : WalkerState R), st.versionI = wrapInt (j : Int) →
      j + reqs.length ≤ 2 ^ 63 →
      (walkerRun env absRootDir reqs st).1.map (fun r => r.2.1) =
          (List.range reqs.length).map (fun k => some (⟨[1, 0, j + k]⟩ : Version)) ∧
        (walkerRun env absRootDir reqs st).2.versionI = wrapInt ((j + reqs.length : Nat) : Int) := by
  induction reqs with
  | nil =>
    intro j st hst hj
    exact ⟨by simp [walkerRun], by simpa [walkerRun] using hst⟩
  | cons req reqs ih =>
    intro j st hst hj
    simp only [List.length_cons] at hj
    have hjlt : j < 2 ^ 63 := by omega
    have hnext : (moduleWalker env absRootDir req st).2.versionI =
        wrapInt ((j + 1 : Nat) : Int) := by
      rw [moduleWalker_versionI, hst, wrapInt_succ]
    obtain ⟨h1, h2⟩ := ih (j + 1) _ hnext (by omega)
    refine ⟨?_, ?_⟩
    · simp only [walkerRun, List.map_cons, h1, List.length_cons, List.range_succ_eq_map,
        List.map_map]
      congr 1
      · simp only [moduleWalker, hst, wrapInt_natCast j hjlt]
        rw [NewVersion_sprintf j hjlt]
        rfl
      · apply List.map_congr_left
        intro k _
        show some (⟨[1, 0, j + 1 + k]⟩ : Version) = some ⟨[1, 0, j + (k + 1)]⟩
        rw [Nat.add_assoc, Nat.add_comm 1 k]
    · simp only [walkerRun, h2, List.length_cons]
      congr 2
      omega

theorem Version_String_eq (k : Nat) :
    Version.String ⟨[1, 0, k]⟩ = "1.0." ++ toString k := by
  rfl

theorem versions_pairwise (n : Nat) :
    List.Pairwise Version.lt ((List.range n).map fun k => (⟨[1, 0, k]⟩ : Version)) := by
  rw [List.pairwise_map]
  refine List.Pairwise.imp ?_ (List.pairwise_lt_range n)
  intro a b hab
  exact List.Lex.cons (List.Lex.cons (List.Lex.rel hab))

theorem walkerRun_append (env : Env R O) (absRootDir : String) (a b : List ModuleRequest)
    (st : WalkerState R) :
    walkerRun env absRootDir (a ++ b) st =
      ((walkerRun env absRootDir a st).1 ++
          (walkerRun env absRootDir b (walkerRun env absRootDir a st).2).1,
        (walkerRun env absRootDir b (walkerRun env absRootDir a st).2).2) := by
  induction a generalizing st with
  | nil => simp [walkerRun]
  | cons r a ih => simp [walkerRun, ih]

/-- The calls made by successive invocations of the walker. -/
theorem walkerRun_trace (env : Env R O) (absRootDir : String) (reqs : List ModuleRequest)
    (st : WalkerState R) :
    (walkerRun env absRootDir reqs st).2.trace =
      st.trace ++ reqs.flatMap fun req =>
        [Event.LoadModule req, Event.LoadConfigDir (pathToModule env absRootDir req)] := by
  induction reqs generalizing st with
  | nil => simp [walkerRun]
  | cons r reqs ih => simp [walkerRun, ih, moduleWalker]

/-- The diagnostics returned by successive invocations of the walker. -/
theorem walkerRun_diags (env : Env R O) (absRootDir : String) (reqs : List ModuleRequest)
    (st : WalkerState R) :
    (walkerRun env absRootDir reqs st).1.flatMap (fun x => x.2.2) =
      reqs.flatMap fun req => (env.LoadConfigDir (pathToModule env absRootDir req)).2 := by
  induction reqs generalizing st with
  | nil => simp [walkerRun]
  | cons r reqs ih => simp [walkerRun, ih, moduleWalker]

/-- The characters of a joined list, accumulator form. -/
theorem intercalate_go_data (acc s : String) (l : List String) :
    (String.intercalate.go acc s l).data = acc.data ++ l.flatMap fun x => s.data ++ x.data := by
  induction l generalizing acc with
  | nil => simp [String.intercalate.go]
  | cons a l ih => simp [String.intercalate.go, ih, String.data_append]

/-- The characters of a joined list: the first element, then every other
element after the separator. -/
theorem intercalate_data (s a : String) (l : List String) :
    (s.intercalate (a :: l)).data = a.data ++ l.flatMap fun x => s.data ++ x.data := by
  simp [String.intercalate, intercalate_go_data]

/-- Splitting after a first segment that holds no separator. -/
theorem splitOn_append_sep (sep : Char) (w rest : List Char) (hw : sep ∉ w) :
    splitOn sep (w ++ sep :: rest) = w :: splitOn sep rest := by
  induction w with
  | nil => simp [splitOn]
  | cons c w ih =>
    have hc : c ≠ sep := fun e => hw (by simp [e])
    have hcs : sep ∉ w := fun e => hw (List.mem_cons_of_mem _ e)
    simp [splitOn, hc, ih hcs]

/-- Splitting the join of segments that hold no separator gives the segments
back. -/
theorem splitOn_segments (sep : Char) (a : List Char) (l : List (List Char))
    (ha : sep ∉ a) (hl : ∀ w ∈ l, sep ∉ w) :
    splitOn sep (a ++ l.flatMap fun x => sep :: x) = a :: l := by
  induction l generalizing a with
  | nil => simpa using splitOn_not_mem sep a ha
  | cons b l ih =>
    simp only [List.flatMap_cons, List.cons_append]
    rw [splitOn_append_sep sep a _ ha,
      ih b (hl b (List.mem_cons_self _ _)) fun w hw => hl w (List.mem_cons_of_mem _ hw)]

/-- Splitting the dotted form of a path gives the segments of the path back,
when the path is not empty and no segment holds a dot. -/
theorem Split_PathString (req : ModuleRequest) (hne : req.Path ≠ [])
    (hdot : ∀ s ∈ req.Path, '.' ∉ s.data) : Split req.PathString '.' = req.Path := by
  cases hp : req.Path with
  | nil => exact absurd hp hne
  | cons a l =>
    rw [hp] at hdot
    have h := splitOn_segments '.' a.data (l.map String.data)
      (hdot a (List.mem_cons_self _ _))
      (by
        intro w hw
        obtain ⟨s, hs, rfl⟩ := List.mem_map.mp hw
        exact hdot s (List.mem_cons_of_mem _ hs))
    have hd : (".".intercalate (a :: l)).data =
        a.data ++ (l.map String.data).flatMap fun x => '.' :: x := by
      rw [intercalate_data]
      simp [List.flatMap_map]
    simp only [Split, ModuleRequest.PathString, hp, hd, h]
    have hid : (String.mk ∘ String.data) = (id : String → String) := by
      funext x
      rfl
    simp [hid]

/-- The segments of a split: there is a first one, none holds the separator,
and the segments joined by the separator give the characters back. -/
theorem splitOn_spec (sep : Char) (cs : List Char) :
    ∃ a l, splitOn sep cs = a :: l ∧ (∀ w ∈ a :: l, sep ∉ w) ∧
      cs = a ++ l.flatMap fun x => sep :: x := by
  induction cs with
  | nil => exact ⟨[], [], rfl, by simp, rfl⟩
  | cons c cs ih =>
    obtain ⟨a, l, h1, h2, h3⟩ := ih
    by_cases hc : c = sep
    · refine ⟨[], a :: l, by simp [splitOn, hc, h1], ?_, ?_⟩
      · intro w hw
        rcases List.mem_cons.mp hw with e | e
        · subst e; simp
        · exact h2 w e
      · simp [hc, ← h3]
    · refine ⟨c :: a, l, by simp [splitOn, hc, h1], ?_, ?_⟩
      · intro w hw
        rcases List.mem_cons.mp hw with e | e
        · subst e
          intro hm
          rcases List.mem_cons.mp hm with e1 | e1
          · exact hc e1.symm
          · exact h2 a (List.mem_cons_self _ _) e1
        · exact h2 w (List.mem_cons_of_mem _ e)
      · simp [← h3]

/-- The segments `strings.Split` returns: the list is not empty, no segment
holds the separating dot, and the segments joined by dots give the string
back. -/
theorem Split_spec (s : String) :
    Split s '.' ≠ [] ∧ (∀ seg ∈ Split s '.', '.' ∉ seg.data) ∧
      ".".intercalate (Split s '.') = s := by
  obtain ⟨a, l, h1, h2, h3⟩ := splitOn_spec '.' s.data
  refine ⟨by simp [Split, h1], ?_, ?_⟩
  · intro seg hseg
    simp only [Split, List.mem_map] at hseg
    obtain ⟨w, hw, rfl⟩ := hseg
    rw [h1] at hw
    exact h2 w hw
  · apply String.ext
    rw [h3]
    simp only [Split, h1, List.map_cons, intercalate_data, List.flatMap_map]
    rfl

/-! ## Lemmas on `BuildConfig` -/

/-- The invocations of the walker made by `buildChildModules` form one
sequence of successive invocations, which holds the request of every module
call reachable from the module, and the diagnostics it returns are those of
the invocations, in order. -/
theorem buildChildModules_walkerRun (env : Env R O) (absRootDir : String) (fuel : Nat) :
    ∀ (path : List String) (m : Module R) (st : WalkerState R)
      (r : List (Config R) × Diagnostics × WalkerState R),
      buildChildModules (moduleWalker env absRootDir) fuel path m st = some r →
      ∃ reqs, r.2.2 = (walkerRun env absRootDir reqs st).2 ∧
        r.2.1 = (walkerRun env absRootDir reqs st).1.flatMap (fun x => x.2.2) ∧
        ∀ req, CallBelow env absRootDir path m req → req ∈ reqs := by
  induction fuel with
  | zero => intro path m st r h; simp [buildChildModules] at h
  | succ fuel ih =>
    intro path m st r h
    simp only [buildChildModules] at h
    -- the loop over the calls, from any accumulator
    have hloop : ∀ (calls : List ModuleCall) (acc r : List (Config R) × Diagnostics × WalkerState R),
        calls.foldlM
          (fun (acc : List (Config R) × Diagnostics × WalkerState R) call =>
            match (moduleWalker env absRootDir ⟨call.Name, path ++ [call.Name], call.SourceAddr⟩
                acc.2.2).1.1 with
            | none => some (acc.1, acc.2.1 ++ (moduleWalker env absRootDir
                ⟨call.Name, path ++ [call.Name], call.SourceAddr⟩ acc.2.2).1.2.2,
                (moduleWalker env absRootDir
                  ⟨call.Name, path ++ [call.Name], call.SourceAddr⟩ acc.2.2).2)
            | some m =>
              match buildChildModules (moduleWalker env absRootDir) fuel (path ++ [call.Name]) m
                  (moduleWalker env absRootDir
                    ⟨call.Name, path ++ [call.Name], call.SourceAddr⟩ acc.2.2).2 with
              | none => none
              | some sub => some (acc.1 ++ [Config.mk (path ++ [call.Name]) m sub.1],
                  acc.2.1 ++ (moduleWalker env absRootDir
                    ⟨call.Name, path ++ [call.Name], call.SourceAddr⟩ acc.2.2).1.2.2 ++ sub.2.1,
                  sub.2.2)) acc = some r →
        ∃ reqs, r.2.2 = (walkerRun env absRootDir reqs acc.2.2).2 ∧
          r.2.1 = acc.2.1 ++ (walkerRun env absRootDir reqs acc.2.2).1.flatMap (fun x => x.2.2) ∧
          (∀ call ∈ calls, requestFor path call ∈ reqs) ∧
          (∀ call ∈ calls, ∀ sub req,
            (env.LoadConfigDir (pathToModule env absRootDir (requestFor path call))).1 = some sub →
            CallBelow env absRootDir (path ++ [call.Name]) sub req → req ∈ reqs) := by
      intro calls
      induction calls with
      | nil =>
        intro acc r h
        simp only [List.foldlM_nil, pure, Option.some.injEq] at h
        subst h
        exact ⟨[], by simp [walkerRun]⟩
      | cons call calls ihc =>
        intro acc r h
        simp only [List.foldlM_cons, bind, Option.bind] at h
        split at h
        · cases h
        · rename_i acc1 hstep
          obtain ⟨reqs2, h21, h22, h23, h24⟩ := ihc acc1 r h
          split at hstep
          · rename_i hnone
            simp only [Option.some.injEq] at hstep
            subst hstep
            refine ⟨requestFor path call :: reqs2, ?_, ?_, ?_, ?_⟩
            · simpa [walkerRun, requestFor] using h21
            · simpa [walkerRun, requestFor, List.append_assoc] using h22
            · intro c hc
              rcases List.mem_cons.mp hc with e | e
              · subst e; exact List.mem_cons_self _ _
              · exact List.mem_cons_of_mem _ (h23 c e)
            · intro c hc sub req hsub hbelow
              rcases List.mem_cons.mp hc with e | e
              · subst e
                have : (env.LoadConfigDir (pathToModule env absRootDir (requestFor path c))).1
                    = none := hnone
                rw [this] at hsub
                cases hsub
              · exact List.mem_cons_of_mem _ (h24 c e sub req hsub hbelow)
          · rename_i m1 hm1
            split at hstep
            · cases hstep
            · rename_i sub hsub
              simp only [Option.some.injEq] at hstep
              subst hstep
              obtain ⟨reqs1, h11, h12, h13⟩ := ih _ _ _ _ hsub
              refine ⟨(requestFor path call :: reqs1) ++ reqs2, ?_, ?_, ?_, ?_⟩
              · rw [walkerRun_append]
                simp only [walkerRun, requestFor]
                rw [← h11]
                exact h21
              · rw [walkerRun_append]
                simp only [walkerRun, List.flatMap_append, List.flatMap_cons, requestFor]
                rw [← h11, ← h12]
                simpa [List.append_assoc] using h22
              · intro c hc
                rcases List.mem_cons.mp hc with e | e
                · subst e; simp
                · exact List.mem_append_right _ (h23 c e)
              · intro c hc sub1 req hsub1 hbelow
                rcases List.mem_cons.mp hc with e | e
                · subst e
                  have hm : (env.LoadConfigDir
                      (pathToModule env absRootDir (requestFor path c))).1 = some m1 := hm1
                  rw [hm] at hsub1
                  cases hsub1
                  exact List.mem_append_left _ (List.mem_cons_of_mem _ (h13 req hbelow))
                · exact List.mem_append_right _ (h24 c e sub1 req hsub1 hbelow)
    obtain ⟨reqs, h1, h2, h3, h4⟩ := hloop m.ModuleCalls ([], [], st) r h
    refine ⟨reqs, h1, by simpa using h2, ?_⟩
    intro req hreq
    cases hreq with
    | direct _ _ call hc => exact h3 call hc
    | nested _ _ call sub _ hc hsub hbelow => exact h4 call hc sub req hsub hbelow

theorem HasErrors_of_mem_flatMap {α : Type} (l : List α) (f : α → Diagnostics) (a : α)
    (ha : a ∈ l) (h : Diagnostics.HasErrors (f a) = true) :
    Diagnostics.HasErrors (l.flatMap f) = true := by
  simp only [Diagnostics.HasErrors, List.any_eq_true, List.mem_flatMap] at h ⊢
  obtain ⟨d, hd, hd1⟩ := h
  exact ⟨d, ⟨a, ha, hd⟩, hd1⟩

/-- What `BuildConfig` returns when the walker is the closure of `LoadIacDir`:
the walker was invoked on a sequence of requests, the state is that of the
last invocation, and the diagnostics are those of the invocations. -/
theorem BuildConfig_walkerRun (env : Env R O) (absRootDir : String) (fuel : Nat)
    (root : Option (Module R)) (st0 st : WalkerState R) (unified : Config R)
    (diags : Diagnostics)
    (h : BuildConfig fuel root (moduleWalker env absRootDir) st0 = .ok (unified, diags, st)) :
    ∃ reqs, st = (walkerRun env absRootDir reqs st0).2 ∧
      diags = reqs.flatMap fun req => (env.LoadConfigDir (pathToModule env absRootDir req)).2 := by
  unfold BuildConfig at h
  cases root with
  | none => cases h
  | some m =>
    simp only at h
    cases hb : buildChildModules (moduleWalker env absRootDir) fuel [] m st0 with
    | none => rw [hb] at h; cases h
    | some r =>
      rw [hb] at h
      simp only [Except.ok.injEq, Prod.mk.injEq] at h
      obtain ⟨reqs, h1, h2, _⟩ := buildChildModules_walkerRun env absRootDir fuel [] m st0 r hb
      refine ⟨reqs, ?_, ?_⟩
      · rw [← h.2.2, h1]
      · rw [← h.2.1, h2, walkerRun_diags]

theorem foldlM_option_mono {α β : Type} (f g : β → α → Option β)
    (h : ∀ b a r, f b a = some r → g b a = some r) :
    ∀ (l : List α) (b r : β), l.foldlM f b = some r → l.foldlM g b = some r := by
  intro l
  induction l with
  | nil => intro b r hr; simpa using hr
  | cons a l ih =>
    intro b r hr
    simp only [List.foldlM_cons, bind, Option.bind] at hr ⊢
    split at hr
    · cases hr
    · rename_i b1 hb1
      rw [h _ _ _ hb1]
      exact ih _ _ hr

theorem foldlM_option_isSome {α β : Type} (f : β → α → Option β)
    (l : List α) (h : ∀ b, ∀ a ∈ l, (f b a).isSome = true) :
    ∀ b, (l.foldlM f b).isSome = true := by
  induction l with
  | nil => intro b; simp
  | cons a l ih =>
    intro b
    simp only [List.foldlM_cons, bind, Option.bind]
    have h1 := h b a (List.mem_cons_self _ _)
    cases hf : f b a with
    | none => rw [hf] at h1; cases h1
    | some b1 => exact ih (fun b a ha => h b a (List.mem_cons_of_mem _ ha)) b1

/-- More fuel does not change what `buildChildModules` returns. -/
theorem buildChildModules_fuel_succ
    (walker : ModuleRequest → WalkerState R →
      (Option (Module R) × Option Version × Diagnostics) × WalkerState R) (fuel : Nat) :
    ∀ (path : List String) (m : Module R) (st : WalkerState R)
      (r : List (Config R) × Diagnostics × WalkerState R),
      buildChildModules walker fuel path m st = some r →
      buildChildModules walker (fuel + 1) path m st = some r := by
  induction fuel with
  | zero => intro path m st r h; simp [buildChildModules] at h
  | succ fuel ih =>
    intro path m st r h
    rw [buildChildModules] at h ⊢
    refine foldlM_option_mono _ _ ?_ _ _ _ h
    intro acc call r1 h1
    simp only at h1 ⊢
    split at h1
    · exact h1
    · rename_i m1 hw
      split at h1
      · cases h1
      · rename_i sub hsub
        rw [ih _ _ _ _ hsub]
        exact h1

theorem buildChildModules_fuel_le
    (walker : ModuleRequest → WalkerState R →
      (Option (Module R) × Option Version × Diagnostics) × WalkerState R) (fuel fuel1 : Nat)
    (hle : fuel ≤ fuel1) (path : List String) (m : Module R) (st : WalkerState R)
    (r : List (Config R) × Diagnostics × WalkerState R)
    (h : buildChildModules walker fuel path m st = some r) :
    buildChildModules walker fuel1 path m st = some r := by
  induction hle with
  | refl => exact h
  | step _ ih => exact buildChildModules_fuel_succ walker _ _ _ _ _ ih

/-- When the module calls below a module nest fewer than `d` deep, the graph
builder returns with any fuel from `d` on. -/
theorem buildChildModules_isSome (env : Env R O) (absRootDir : String) (d : Nat) :
    ∀ (path : List String) (m : Module R) (st : WalkerState R),
      NestedWithin env absRootDir d path m →
      (buildChildModules (moduleWalker env absRootDir) d path m st).isSome = true := by
  induction d with
  | zero => intro path m st h; exact absurd h (by simp [NestedWithin])
  | succ d ih =>
    intro path m st h
    rw [buildChildModules]
    apply foldlM_option_isSome
    intro acc call hcall
    simp only
    split
    · rfl
    · rename_i m1 hw
      have hsub := ih (path ++ [call.Name]) m1
        (moduleWalker env absRootDir ⟨call.Name, path ++ [call.Name], call.SourceAddr⟩
          acc.2.2).2 (h call hcall m1 hw)
      cases hs : buildChildModules (moduleWalker env absRootDir) d (path ++ [call.Name]) m1
          (moduleWalker env absRootDir ⟨call.Name, path ++ [call.Name], call.SourceAddr⟩
            acc.2.2).2 with
      | none => rw [hs] at hsub; cases hsub
      | some sub => rfl


/-- More fuel does not change what `BuildConfig` returns. -/
theorem BuildConfig_fuel_le (fuel fuel1 : Nat) (hle : fuel ≤ fuel1) (root : Option (Module R))
    (walker : ModuleRequest → WalkerState R →
      (Option (Module R) × Option Version × Diagnostics) × WalkerState R)
    (st : WalkerState R) (r : Config R × Diagnostics × WalkerState R)
    (h : BuildConfig fuel root walker st = .ok r) :
    BuildConfig fuel1 root walker st = .ok r := by
  unfold BuildConfig at h ⊢
  cases root with
  | none => cases h
  | some m =>
    simp only at h ⊢
    cases hb : buildChildModules walker fuel [] m st with
    | none => rw [hb] at h; cases h
    | some r1 =>
      rw [hb] at h
      rw [buildChildModules_fuel_le walker fuel fuel1 hle [] m st r1 hb]
      exact h

/-- Once `LoadIacDir` returns, more fuel does not change what it returns. -/
theorem LoadIacDir_fuel_le (env : Env R O) (fuel fuel1 : Nat) (hle : fuel ≤ fuel1)
    (rootDir : String) (out : Outcome R O) (h : LoadIacDir env fuel rootDir = .ok out) :
    LoadIacDir env fuel1 rootDir = .ok out := by
  unfold LoadIacDir at h ⊢
  cases habs : env.GetAbsPath rootDir with
  | error e => rw [habs] at h; exact h
  | ok absRootDir =>
    rw [habs] at h
    simp only at h ⊢
    split
    · rename_i hc; simpa [hc] using h
    · rename_i hc
      simp only [hc, if_false] at h
      split
      · rename_i hl; simpa [hl] using h
      · rename_i hl
        simp only [hl, if_false] at h
        cases hb : BuildConfig fuel (env.LoadConfigDir absRootDir).1 (moduleWalker env absRootDir)
            (walkerInit ([Event.GetAbsPath rootDir, Event.IsConfigDir absRootDir] ++
              [Event.LoadConfigDir absRootDir])) with
        | error a => rw [hb] at h; cases h
        | ok r =>
          rw [hb] at h
          rw [BuildConfig_fuel_le fuel fuel1 hle _ _ _ r hb]
          exact h

/-- Outcome of the collector on a tree where every conversion succeeds, the
converted form being given by `f`: the converted resources in breadth-first
order. -/
theorem resourceCollector_breadth_first (env : Env R O) (f : R → O) (t : Config R)
    (trace : List (Event R))
    (hok : ∀ r ∈ t.allResources, env.CreateResourceConfig r = .ok (f r)) :
    resourceCollector env t trace =
      ⟨(bfsResources env.range t).map f, none,
        trace ++ (bfsResources env.range t).map Event.CreateResourceConfig⟩ := by
  rw [resourceCollector_eq, convertAll_ok _ f _ (fun r hr =>
    hok r ((bfsResources_perm env.range t).mem_iff.mp hr))]
  simp

/-- When `range` visits every map in declaration order, the collector returns
the converted resources in breadth-first order of the nodes and declaration
order within a node. -/
theorem resourceCollector_declared (env : Env R O) (f : R → O) (t : Config R)
    (trace : List (Event R)) (hrange : env.range = RangeOrder.declared R)
    (hok : ∀ r ∈ t.allResources, env.CreateResourceConfig r = .ok (f r)) :
    (resourceCollector env t trace).allResourcesConfig =
      ((breadthFirst (RangeOrder.declared R) t).flatMap
        fun c => c.Module.ManagedResources).map f := by
  rw [resourceCollector_breadth_first env f t trace hok, hrange]
  rfl

/-! ## `LoadIacDir` from end to end -/

/-- What `LoadIacDir` does up to the end of the graph build when the root
loads and the module calls below it nest fewer than `d` deep: the build
returns, whatever the fuel from `d` on, after invoking the walker on a
sequence of requests that holds every call reachable from the root, and its
diagnostics are those of the loads of these requests. -/
theorem BuildConfig_returns (env : Env R O) (absRootDir : String) (root : Module R) (d : Nat)
    (st0 : WalkerState R) (hfin : NestedWithin env absRootDir d [] root) :
    ∃ reqs unified, (∀ req, CallBelow env absRootDir [] root req → req ∈ reqs) ∧
      ∀ fuel, d ≤ fuel →
        BuildConfig fuel (some root) (moduleWalker env absRootDir) st0 =
          .ok (unified,
            reqs.flatMap (fun req => (env.LoadConfigDir (pathToModule env absRootDir req)).2),
            (walkerRun env absRootDir reqs st0).2) := by
  have hs := buildChildModules_isSome env absRootDir d [] root st0 hfin
  cases hb : buildChildModules (moduleWalker env absRootDir) d [] root st0 with
  | none => rw [hb] at hs; cases hs
  | some r =>
    obtain ⟨reqs, h1, h2, h3⟩ := buildChildModules_walkerRun env absRootDir d [] root st0 r hb
    refine ⟨reqs, Config.mk [] root r.1, h3, ?_⟩
    intro fuel hle
    simp only [BuildConfig,
      buildChildModules_fuel_le (moduleWalker env absRootDir) d fuel hle [] root st0 r hb]
    rw [h1, h2, walkerRun_diags]

/-- When the root module, if its load reports no error, is present and the
module calls below it nest fewer than `d` deep, `LoadIacDir` returns, whatever
the fuel from `d` on. -/
theorem LoadIacDir_returns (env : Env R O) (rootDir : String) (d : Nat)
    (H : ∀ absRootDir, env.GetAbsPath rootDir = .ok absRootDir →
      ((env.LoadConfigDir absRootDir).1 = none →
          Diagnostics.HasErrors (env.LoadConfigDir absRootDir).2 = true) ∧
        ∀ root, (env.LoadConfigDir absRootDir).1 = some root →
          NestedWithin env absRootDir d [] root)
    (fuel : Nat) (hle : d ≤ fuel) :
    ∃ out, LoadIacDir env fuel rootDir = .ok out := by
  unfold LoadIacDir
  cases habs : env.GetAbsPath rootDir with
  | error e => exact ⟨_, rfl⟩
  | ok absRootDir =>
    obtain ⟨hroot, hN⟩ := H absRootDir habs
    simp only
    split
    · exact ⟨_, rfl⟩
    · split
      · exact ⟨_, rfl⟩
      · rename_i hl
        cases hm : (env.LoadConfigDir absRootDir).1 with
        | none => exact absurd (hroot hm) hl
        | some m =>
          obtain ⟨reqs, unified, _, hb⟩ := BuildConfig_returns env absRootDir m d
            (walkerInit ([Event.GetAbsPath rootDir, Event.IsConfigDir absRootDir] ++
              [Event.LoadConfigDir absRootDir])) (hN m hm)
          rw [hb fuel hle]
          simp only
          split <;> exact ⟨_, rfl⟩

/-- When the root loads, the graph builds and neither reports an error,
`LoadIacDir` returns what the collector returns on the built tree. -/
theorem LoadIacDir_collects (env : Env R O) (fuel : Nat) (rootDir absRootDir : String)
    (unified : Config R) (diags : Diagnostics) (st : WalkerState R)
    (habs : env.GetAbsPath rootDir = .ok absRootDir)
    (hcfg : env.IsConfigDir absRootDir = true)
    (hroot : Diagnostics.HasErrors (env.LoadConfigDir absRootDir).2 = false)
    (hbuild : BuildConfig fuel (env.LoadConfigDir absRootDir).1 (moduleWalker env absRootDir)
      (walkerInit [Event.GetAbsPath rootDir, Event.IsConfigDir absRootDir,
        Event.LoadConfigDir absRootDir]) = .ok (unified, diags, st))
    (hdiags : Diagnostics.HasErrors diags = false) :
    LoadIacDir env fuel rootDir = .ok (resourceCollector env unified st.trace) := by
  unfold LoadIacDir
  simp only [habs, hcfg, Bool.not_true, Bool.false_eq_true, if_false, hroot]
  simp only [List.cons_append, List.nil_append, hbuild, hdiags, Bool.false_eq_true, if_false]

/-- The graph built for `/proj`. -/
theorem demo_proj_build (ord : RangeOrder Nat) :
    BuildConfig 5 ((demoEnv ord).LoadConfigDir "/proj").1 (moduleWalker (demoEnv ord) "/proj")
      (walkerInit [Event.GetAbsPath "proj", Event.IsConfigDir "/proj",
        Event.LoadConfigDir "/proj"]) = .ok (demoTree, [], ⟨1, demoProjTrace⟩) := rfl

/-- The graph built for `/half`. -/
theorem demo_half_build (ord : RangeOrder Nat) :
    BuildConfig 5 ((demoEnv ord).LoadConfigDir "/half").1 (moduleWalker (demoEnv ord) "/half")
      (walkerInit [Event.GetAbsPath "half", Event.IsConfigDir "/half",
        Event.LoadConfigDir "/half"]) = .ok (demoHalf, [], ⟨0, demoHalfTrace⟩) := rfl

/-- The module calls of `/proj` nest two deep: the root calls `vpc`, which
calls no module. -/
theorem demoProj_nested (ord : RangeOrder Nat) (root : Module Nat)
    (hroot : ((demoEnv ord).LoadConfigDir "/proj").1 = some root) :
    NestedWithin (demoEnv ord) "/proj" 2 [] root := by
  have hr : root = ⟨[1, 2], [⟨"vpc", "git::https://example.com/vpc.git"⟩]⟩ :=
    (Option.some.inj hroot).symm
  subst hr
  intro call hcall sub hsub
  simp only [List.mem_singleton] at hcall
  subst hcall
  have hs : sub = ⟨[3], []⟩ := (Option.some.inj hsub).symm
  subst hs
  intro call hcall
  exact absurd hcall (List.not_mem_nil _)

/-- On `proj`, `LoadIacDir` returns whatever the fuel from 2 on. -/
theorem LoadIacDir_proj_returns (ord : RangeOrder Nat) (fuel : Nat) (hle : 2 ≤ fuel) :
    ∃ out, LoadIacDir (demoEnv ord) fuel "proj" = .ok out :=
  LoadIacDir_returns (demoEnv ord) "proj" 2
    (fun absRootDir habs => by
      have h : absRootDir = "/proj" := (Except.ok.inj habs).symm
      subst h
      exact ⟨fun hn => Option.noConfusion hn, fun root hroot => demoProj_nested ord root hroot⟩)
    fuel hle

/-- `LoadIacDir` on `proj` when `range` visits the maps in declaration order. -/
theorem LoadIacDir_proj_declared :
    LoadIacDir (demoEnv (RangeOrder.declared Nat)) 5 "proj" =
      .ok ⟨[101, 102, 103], none,
        demoProjTrace ++ [Event.CreateResourceConfig 1, Event.CreateResourceConfig 2,
          Event.CreateResourceConfig 3]⟩ := by
  rw [LoadIacDir_collects _ 5 "proj" "/proj" _ _ _ rfl (by decide) (by decide)
    (demo_proj_build _) (by decide)]
  simp [resourceCollector, bfsLoop, convertAll, demoEnv, demoConvert, demoTree,
    RangeOrder.declared, Config.Module, Config.Children]

/-- `LoadIacDir` on `proj` when `range` visits the maps in the opposite order. -/
theorem LoadIacDir_proj_reversed :
    LoadIacDir (demoEnv (RangeOrder.reversed Nat)) 5 "proj" =
      .ok ⟨[102, 101, 103], none,
        demoProjTrace ++ [Event.CreateResourceConfig 2, Event.CreateResourceConfig 1,
          Event.CreateResourceConfig 3]⟩ := by
  rw [LoadIacDir_collects _ 5 "proj" "/proj" _ _ _ rfl (by decide) (by decide)
    (demo_proj_build _) (by decide)]
  simp [resourceCollector, bfsLoop, convertAll, demoEnv, demoConvert, demoTree,
    RangeOrder.reversed, Config.Module, Config.Children]

/-- `LoadIacDir` on `half` when `range` visits the maps in declaration order. -/
theorem LoadIacDir_half_declared :
    LoadIacDir (demoEnv (RangeOrder.declared Nat)) 5 "half" =
      .ok ⟨[101], some "failed to create ResourceConfig",
        demoHalfTrace ++ [Event.CreateResourceConfig 1, Event.CreateResourceConfig 0]⟩ := by
  rw [LoadIacDir_collects _ 5 "half" "/half" _ _ _ rfl (by decide) (by decide)
    (demo_half_build _) (by decide)]
  simp [resourceCollector, bfsLoop, convertAll, demoEnv, demoConvert, demoHalf,
    RangeOrder.declared, Config.Module, Config.Children, Errorf_create]

/-- `LoadIacDir` on `half` when `range` visits the maps in the opposite order. -/
theorem LoadIacDir_half_reversed :
    LoadIacDir (demoEnv (RangeOrder.reversed Nat)) 5 "half" =
      .ok ⟨[], some "failed to create ResourceConfig",
        demoHalfTrace ++ [Event.CreateResourceConfig 0]⟩ := by
  rw [LoadIacDir_collects _ 5 "half" "/half" _ _ _ rfl (by decide) (by decide)
    (demo_half_build _) (by decide)]
  simp [resourceCollector, bfsLoop, convertAll, demoEnv, demoConvert, demoHalf,
    RangeOrder.reversed, Config.Module, Config.Children, Errorf_create]

/-- The resource 0 of `/half` does not convert. -/
theorem demoHalf_fails :
    ∃ r ∈ demoHalf.allResources, ∃ e, demoConvert r = .error e :=
  ⟨0, by simp [Config.allResources, Config.allResourcesList, demoHalf],
    "unsupported resource", rfl⟩

/-! ## The claims -/

/-- C1 (as amended): on a tree where every conversion succeeds, the collector
returns no error and exactly the list obtained by visiting the nodes in
breadth-first order (all nodes at depth d before any node at depth d + 1) and
appending, for each visited node, the converted form of its managed resources,
the children and the resources of a node being taken in the order in which
`range` visits the two maps. A root without children yields its converted
resources, and a root with one leaf child yields the root entries followed by
the child entries. With `RangeOrder.declared` this is declaration order. -/
theorem C1_collector_breadth_first (env : Env R O) (f : R → O) (t : Config R)
    (trace : List (Event R))
    (hok : ∀ r ∈ t.allResources, env.CreateResourceConfig r = .ok (f r)) :
    resourceCollector env t trace =
        ⟨((breadthFirst env.range t).flatMap env.range.resources).map f, none,
          trace ++ (bfsResources env.range t).map Event.CreateResourceConfig⟩ ∧
      (∀ p m, t = Config.mk p m [] →
        (resourceCollector env t trace).allResourcesConfig = (env.range.resources t).map f ∧
          (env.range.resources t).Perm m.ManagedResources) ∧
      (∀ p m p1 m1, t = Config.mk p m [Config.mk p1 m1 []] →
        (resourceCollector env t trace).allResourcesConfig =
            (env.range.resources t).map f ++
              (env.range.resources (Config.mk p1 m1 [])).map f ∧
          (env.range.resources t).Perm m.ManagedResources ∧
          (env.range.resources (Config.mk p1 m1 [])).Perm m1.ManagedResources) := by
  have hmain := resourceCollector_breadth_first env f t trace hok
  refine ⟨hmain, ?_, ?_⟩
  · intro p m ht
    refine ⟨?_, by simpa [ht, Config.Module] using env.range.resources_perm t⟩
    rw [hmain]
    subst ht
    simp [bfsResources, breadthFirst, Config.height, Config.heightList, level, List.range_succ]
  · intro p m p1 m1 ht
    have hc : env.range.children t = [Config.mk p1 m1 []] := by
      have h := env.range.children_perm t
      rw [ht] at h ⊢
      exact List.perm_singleton.mp h
    refine ⟨?_, by simpa [ht, Config.Module] using env.range.resources_perm t,
      by simpa [Config.Module] using env.range.resources_perm (Config.mk p1 m1 [])⟩
    rw [hmain]
    subst ht
    simp [bfsResources, breadthFirst, Config.height, Config.heightList, level, hc,
      List.range_succ]

/-- C1, witness: the tree of `/proj` under the reversed iteration order. -/
theorem C1_collector_breadth_first_witness :
    (∀ r ∈ demoTree.allResources,
        (demoEnv (RangeOrder.reversed Nat)).CreateResourceConfig r = .ok (r + 100)) ∧
      (resourceCollector (demoEnv (RangeOrder.reversed Nat)) demoTree [] =
        ⟨((breadthFirst (demoEnv (RangeOrder.reversed Nat)).range demoTree).flatMap
            (demoEnv (RangeOrder.reversed Nat)).range.resources).map (fun r => r + 100), none,
          [] ++ (bfsResources (demoEnv (RangeOrder.reversed Nat)).range demoTree).map
            Event.CreateResourceConfig⟩ ∧
      (∀ p m, demoTree = Config.mk p m [] →
        (resourceCollector (demoEnv (RangeOrder.reversed Nat)) demoTree []).allResourcesConfig =
            ((demoEnv (RangeOrder.reversed Nat)).range.resources demoTree).map
              (fun r => r + 100) ∧
          ((demoEnv (RangeOrder.reversed Nat)).range.resources demoTree).Perm
            m.ManagedResources) ∧
      (∀ p m p1 m1, demoTree = Config.mk p m [Config.mk p1 m1 []] →
        (resourceCollector (demoEnv (RangeOrder.reversed Nat)) demoTree []).allResourcesConfig =
            ((demoEnv (RangeOrder.reversed Nat)).range.resources demoTree).map
                (fun r => r + 100) ++
              ((demoEnv (RangeOrder.reversed Nat)).range.resources (Config.mk p1 m1 [])).map
                (fun r => r + 100) ∧
          ((demoEnv (RangeOrder.reversed Nat)).range.resources demoTree).Perm
            m.ManagedResources ∧
          ((demoEnv (RangeOrder.reversed Nat)).range.resources (Config.mk p1 m1 [])).Perm
            m1.ManagedResources)) :=
  ⟨demoTree_converts,
    C1_collector_breadth_first (demoEnv (RangeOrder.reversed Nat)) (fun r => r + 100) demoTree []
      demoTree_converts⟩

/-- C1, counterexample: the tree of `/proj`, on which every conversion
succeeds, when `range` happens to visit the maps in the opposite order: the
claim gives the converted resources 1, 2, 3 in this order, and `LoadIacDir`
returns them in the order 2, 1, 3. -/
theorem C1_counterexample :
    (∀ r ∈ demoTree.allResources,
        (demoEnv (RangeOrder.reversed Nat)).CreateResourceConfig r = .ok (r + 100)) ∧
      ((breadthFirst (RangeOrder.declared Nat) demoTree).flatMap
          (RangeOrder.declared Nat).resources).map (fun r => r + 100) = [101, 102, 103] ∧
      resourceCollector (demoEnv (RangeOrder.reversed Nat)) demoTree demoProjTrace =
        ⟨[102, 101, 103], none,
          demoProjTrace ++ [Event.CreateResourceConfig 2, Event.CreateResourceConfig 1,
            Event.CreateResourceConfig 3]⟩ ∧
      LoadIacDir (demoEnv (RangeOrder.reversed Nat)) 5 "proj" =
        .ok ⟨[102, 101, 103], none,
          demoProjTrace ++ [Event.CreateResourceConfig 2, Event.CreateResourceConfig 1,
            Event.CreateResourceConfig 3]⟩ := by
  refine ⟨demoTree_converts, by decide, ?_, LoadIacDir_proj_reversed⟩
  simp [resourceCollector, bfsLoop, convertAll, demoEnv, demoConvert, demoTree,
    RangeOrder.reversed, Config.Module, Config.Children]

/-- C2 (as amended): on a tree where every conversion succeeds, the list the
collector returns has as many entries as there are managed resources declared
across all the nodes of the tree, and no error is returned. -/
theorem C2_length_on_success (env : Env R O) (t : Config R) (trace : List (Event R))
    (hok : ∀ r ∈ t.allResources, ∃ o, env.CreateResourceConfig r = .ok o) :
    ((resourceCollector env t trace).allResourcesConfig).length = t.countResources ∧
      (resourceCollector env t trace).err = none := by
  have h := resourceCollector_all_ok env t trace hok
  rw [h.1]
  exact ⟨h.2, rfl⟩

/-- C2, witness: the tree of `/proj`, three resources on two nodes. -/
theorem C2_length_on_success_witness :
    (∀ r ∈ demoTree.allResources,
        ∃ o, (demoEnv (RangeOrder.declared Nat)).CreateResourceConfig r = .ok o) ∧
      (((resourceCollector (demoEnv (RangeOrder.declared Nat)) demoTree []).allResourcesConfig).length
          = demoTree.countResources ∧
        (resourceCollector (demoEnv (RangeOrder.declared Nat)) demoTree []).err = none) :=
  ⟨fun r hr => ⟨r + 100, demoTree_converts r hr⟩,
    C2_length_on_success (demoEnv (RangeOrder.declared Nat)) demoTree []
      (fun r hr => ⟨r + 100, demoTree_converts r hr⟩)⟩

/-- C2, counterexample: the tree of `/half` declares two resources, the
second of which fails to convert: the list `LoadIacDir` returns has length 1,
not 2. -/
theorem C2_counterexample :
    demoHalf.countResources = 2 ∧
      ((resourceCollector (demoEnv (RangeOrder.declared Nat)) demoHalf
        demoHalfTrace).allResourcesConfig).length = 1 ∧
      LoadIacDir (demoEnv (RangeOrder.declared Nat)) 5 "half" =
        .ok ⟨[101], some "failed to create ResourceConfig",
          demoHalfTrace ++ [Event.CreateResourceConfig 1, Event.CreateResourceConfig 0]⟩ := by
  refine ⟨by decide, ?_, LoadIacDir_half_declared⟩
  simp [resourceCollector, bfsLoop, convertAll, demoEnv, demoConvert, demoHalf,
    RangeOrder.declared, Config.Module, Config.Children]

/-- C3 (as amended): on a tree where some conversion fails, the collector
stops at the first failing resource in breadth-first order and returns the
error `failed to create ResourceConfig` together with the converted form of
exactly the resources visited before that one; no resource at or after the
failing one is in the list, which is empty only when nothing precedes the
failure. -/
theorem C3_fail_fast_keeps_converted (env : Env R O) (t : Config R) (trace : List (Event R))
    (hbad : ∃ r ∈ t.allResources, ∃ e, env.CreateResourceConfig r = .error e) :
    ∃ pre r post, bfsResources env.range t = pre ++ r :: post ∧
      (∀ x ∈ pre, ∃ o, env.CreateResourceConfig x = .ok o) ∧
      (∃ e, env.CreateResourceConfig r = .error e) ∧
      resourceCollector env t trace =
        ⟨pre.filterMap (fun x => (env.CreateResourceConfig x).toOption),
          some "failed to create ResourceConfig",
          trace ++ (pre ++ [r]).map Event.CreateResourceConfig⟩ ∧
      ((resourceCollector env t trace).allResourcesConfig).length = pre.length :=
  resourceCollector_some_error env t trace hbad

/-- C3, witness: the tree of `/half`, whose second resource fails. -/
theorem C3_fail_fast_keeps_converted_witness :
    (∃ r ∈ demoHalf.allResources,
        ∃ e, (demoEnv (RangeOrder.declared Nat)).CreateResourceConfig r = .error e) ∧
      ∃ pre r post,
        bfsResources (demoEnv (RangeOrder.declared Nat)).range demoHalf = pre ++ r :: post ∧
        (∀ x ∈ pre, ∃ o, (demoEnv (RangeOrder.declared Nat)).CreateResourceConfig x = .ok o) ∧
        (∃ e, (demoEnv (RangeOrder.declared Nat)).CreateResourceConfig r = .error e) ∧
        resourceCollector (demoEnv (RangeOrder.declared Nat)) demoHalf [] =
          ⟨pre.filterMap
              (fun x => ((demoEnv (RangeOrder.declared Nat)).CreateResourceConfig x).toOption),
            some "failed to create ResourceConfig",
            [] ++ (pre ++ [r]).map Event.CreateResourceConfig⟩ ∧
        ((resourceCollector (demoEnv (RangeOrder.declared Nat)) demoHalf
          []).allResourcesConfig).length = pre.length :=
  ⟨demoHalf_fails,
    C3_fail_fast_keeps_converted (demoEnv (RangeOrder.declared Nat)) demoHalf [] demoHalf_fails⟩

/-- C3, counterexample: the tree of `/half` declares the resources 1 and 0,
visited in that order, where 1 converts and 0 does not: `LoadIacDir` returns
an error together with the non-empty list holding the converted 1. -/
theorem C3_counterexample :
    (∃ r ∈ demoHalf.allResources,
        ∃ e, (demoEnv (RangeOrder.declared Nat)).CreateResourceConfig r = .error e) ∧
      resourceCollector (demoEnv (RangeOrder.declared Nat)) demoHalf demoHalfTrace =
        ⟨[101], some "failed to create ResourceConfig",
          demoHalfTrace ++ [Event.CreateResourceConfig 1, Event.CreateResourceConfig 0]⟩ ∧
      LoadIacDir (demoEnv (RangeOrder.declared Nat)) 5 "half" =
        .ok ⟨[101], some "failed to create ResourceConfig",
          demoHalfTrace ++ [Event.CreateResourceConfig 1, Event.CreateResourceConfig 0]⟩ ∧
      ([101] : List Nat) ≠ [] := by
  refine ⟨demoHalf_fails, ?_, LoadIacDir_half_declared, by decide⟩
  simp [resourceCollector, bfsLoop, convertAll, demoEnv, demoConvert, demoHalf,
    RangeOrder.declared, Config.Module, Config.Children, Errorf_create]

/-- C4: when the parser's `IsConfigDir` check on the absolute root directory is
false, `LoadIacDir` returns a non-nil error and an empty list, and the only
calls it has made are `GetAbsPath` and `IsConfigDir`: the directory is not
loaded, the module walker is not invoked and no resource is converted. -/
theorem C4_no_config_files (env : Env R O) (fuel : Nat) (rootDir absRootDir : String)
    (habs : env.GetAbsPath rootDir = .ok absRootDir)
    (hno : env.IsConfigDir absRootDir = false) :
    ∃ out, LoadIacDir env fuel rootDir = .ok out ∧
      out.allResourcesConfig = [] ∧ out.err ≠ none ∧
      out.trace = [Event.GetAbsPath rootDir, Event.IsConfigDir absRootDir] ∧
      (∀ dir, Event.LoadConfigDir dir ∉ out.trace) ∧
      (∀ req, Event.LoadModule req ∉ out.trace) ∧
      (∀ r, Event.CreateResourceConfig r ∉ out.trace) := by
  refine ⟨_, by simp [LoadIacDir, habs, hno]; rfl, rfl, by simp, rfl, ?_, ?_, ?_⟩ <;> simp

/-- C4, witness: the directory `empty`, which holds no configuration file. -/
theorem C4_no_config_files_witness :
    (demoEnv (RangeOrder.declared Nat)).GetAbsPath "empty" = .ok "/empty" ∧
    (demoEnv (RangeOrder.declared Nat)).IsConfigDir "/empty" = false ∧
    ∃ out, LoadIacDir (demoEnv (RangeOrder.declared Nat)) 5 "empty" = .ok out ∧
      out.allResourcesConfig = [] ∧ out.err ≠ none ∧
      out.trace = [Event.GetAbsPath "empty", Event.IsConfigDir "/empty"] ∧
      (∀ dir, Event.LoadConfigDir dir ∉ out.trace) ∧
      (∀ req, Event.LoadModule req ∉ out.trace) ∧
      (∀ r, Event.CreateResourceConfig r ∉ out.trace) :=
  ⟨rfl, by decide,
    C4_no_config_files (demoEnv (RangeOrder.declared Nat)) 5 "empty" "/empty" rfl (by decide)⟩

/-- C5: when the root directory loads without error, the module calls below it
nest fewer than `d` deep (the module-call graph is finite) and the directory
computed for some module call reachable from the root fails to load
(`LoadConfigDir` returns error diagnostics), `LoadIacDir` returns, whatever
the fuel from `d` on, the error `failed to build terraform allResourcesConfig`
and an empty list; the walker was invoked on the failing call, which is not
skipped over, and no resource of any module was converted: the calls made are
the three on the root directory and, for every request of the walk, the
invocation of the walker and its load. -/
theorem C5_module_load_failure (env : Env R O) (rootDir absRootDir : String) (root : Module R)
    (d : Nat) (req : ModuleRequest)
    (habs : env.GetAbsPath rootDir = .ok absRootDir)
    (hcfg : env.IsConfigDir absRootDir = true)
    (hload : (env.LoadConfigDir absRootDir).1 = some root)
    (hroot : Diagnostics.HasErrors (env.LoadConfigDir absRootDir).2 = false)
    (hfin : NestedWithin env absRootDir d [] root)
    (hcall : CallBelow env absRootDir [] root req)
    (hfail : Diagnostics.HasErrors
      (env.LoadConfigDir (pathToModule env absRootDir req)).2 = true) :
    ∃ reqs : List ModuleRequest, req ∈ reqs ∧
      (∀ fuel, d ≤ fuel →
        LoadIacDir env fuel rootDir =
          .ok ⟨[], some "failed to build terraform allResourcesConfig",
            [Event.GetAbsPath rootDir, Event.IsConfigDir absRootDir,
              Event.LoadConfigDir absRootDir] ++
              reqs.flatMap fun q =>
                [Event.LoadModule q, Event.LoadConfigDir (pathToModule env absRootDir q)]⟩) ∧
      ∀ r : R, Event.CreateResourceConfig r ∉
        [Event.GetAbsPath rootDir, Event.IsConfigDir absRootDir,
          Event.LoadConfigDir absRootDir] ++
          reqs.flatMap fun q =>
            [Event.LoadModule q, Event.LoadConfigDir (pathToModule env absRootDir q)] := by
  obtain ⟨reqs, unified, hreqs, hbuild⟩ := BuildConfig_returns env absRootDir root d
    (walkerInit [Event.GetAbsPath rootDir, Event.IsConfigDir absRootDir,
      Event.LoadConfigDir absRootDir]) hfin
  have hmem := hreqs req hcall
  refine ⟨reqs, hmem, ?_, ?_⟩
  · intro fuel hle
    have hd : Diagnostics.HasErrors (reqs.flatMap fun q =>
        (env.LoadConfigDir (pathToModule env absRootDir q)).2) = true :=
      HasErrors_of_mem_flatMap reqs _ req hmem hfail
    have hb := hbuild fuel hle
    simp only [walkerInit] at hb
    unfold LoadIacDir
    simp only [habs, hcfg, Bool.not_true, Bool.false_eq_true, if_false, hroot, hload]
    simp only [List.cons_append, List.nil_append, walkerInit, hb, hd, if_true, Errorf_build,
      walkerRun_trace]
  · intro r hr
    simp at hr

/-- The module calls of `/missing` nest one deep. -/
theorem demoMissing_nested :
    NestedWithin (demoEnv (RangeOrder.declared Nat)) "/missing" 1 [] demoMissingRoot := by
  intro call hcall sub hsub
  simp only [demoMissingRoot, List.mem_singleton] at hcall
  subst hcall
  have hnone : ((demoEnv (RangeOrder.declared Nat)).LoadConfigDir
      (pathToModule (demoEnv (RangeOrder.declared Nat)) "/missing"
        (requestFor [] ⟨"db", "./db"⟩))).1 = none := rfl
  exact Option.noConfusion (hnone.symm.trans hsub)

/-- C5, witness: the directory `missing`, whose module `db` has no directory. -/
theorem C5_module_load_failure_witness :
    (demoEnv (RangeOrder.declared Nat)).GetAbsPath "missing" = .ok "/missing" ∧
      (demoEnv (RangeOrder.declared Nat)).IsConfigDir "/missing" = true ∧
      ((demoEnv (RangeOrder.declared Nat)).LoadConfigDir "/missing").1 = some demoMissingRoot ∧
      Diagnostics.HasErrors
        ((demoEnv (RangeOrder.declared Nat)).LoadConfigDir "/missing").2 = false ∧
      NestedWithin (demoEnv (RangeOrder.declared Nat)) "/missing" 1 [] demoMissingRoot ∧
      CallBelow (demoEnv (RangeOrder.declared Nat)) "/missing" [] demoMissingRoot
        (requestFor [] ⟨"db", "./db"⟩) ∧
      Diagnostics.HasErrors ((demoEnv (RangeOrder.declared Nat)).LoadConfigDir
        (pathToModule (demoEnv (RangeOrder.declared Nat)) "/missing"
          (requestFor [] ⟨"db", "./db"⟩))).2 = true ∧
      ∃ reqs : List ModuleRequest, requestFor [] ⟨"db", "./db"⟩ ∈ reqs ∧
        (∀ fuel, 1 ≤ fuel →
          LoadIacDir (demoEnv (RangeOrder.declared Nat)) fuel "missing" =
            .ok ⟨[], some "failed to build terraform allResourcesConfig",
              [Event.GetAbsPath "missing", Event.IsConfigDir "/missing",
                Event.LoadConfigDir "/missing"] ++
                reqs.flatMap fun q =>
                  [Event.LoadModule q, Event.LoadConfigDir
                    (pathToModule (demoEnv (RangeOrder.declared Nat)) "/missing" q)]⟩) ∧
        ∀ r : Nat, Event.CreateResourceConfig r ∉
          [Event.GetAbsPath "missing", Event.IsConfigDir "/missing",
            Event.LoadConfigDir "/missing"] ++
            reqs.flatMap fun q =>
              [Event.LoadModule q, Event.LoadConfigDir
                (pathToModule (demoEnv (RangeOrder.declared Nat)) "/missing" q)] :=
  ⟨rfl, by decide, rfl, by decide, demoMissing_nested,
    CallBelow.direct [] demoMissingRoot ⟨"db", "./db"⟩ (by simp [demoMissingRoot]), by decide,
    C5_module_load_failure (demoEnv (RangeOrder.declared Nat)) "missing" "/missing"
      demoMissingRoot 1 (requestFor [] ⟨"db", "./db"⟩) rfl (by decide) rfl (by decide)
      demoMissing_nested
      (CallBelow.direct [] demoMissingRoot ⟨"db", "./db"⟩ (by simp [demoMissingRoot]))
      (by decide)⟩

/-- C6 (as amended): the walker never looks at the declared source of a module
call. Whatever the source, it computes the directory from the dotted path of
the request and loads it; the module and the diagnostics it returns are
exactly those of that load, so it reports an error only when the load does. -/
theorem C6_walker_ignores_source (env : Env R O) (absRootDir : String) (req : ModuleRequest)
    (st : WalkerState R) (src : String) :
    (moduleWalker env absRootDir { req with SourceAddr := src } st).1 =
        (moduleWalker env absRootDir req st).1 ∧
      (moduleWalker env absRootDir req st).1.2.2 =
        (env.LoadConfigDir (pathToModule env absRootDir req)).2 ∧
      (moduleWalker env absRootDir req st).1.1 =
        (env.LoadConfigDir (pathToModule env absRootDir req)).1 ∧
      Event.LoadConfigDir (pathToModule env absRootDir req) ∈
        (moduleWalker env absRootDir req st).2.trace := by
  simp [moduleWalker, pathToModule, ModuleRequest.PathString]

/-- C6, counterexample: a call whose source is a remote git address, not a
local path, for which the directory named after the call exists: the walker
loads `/proj/vpc` and returns its module without any error. -/
theorem C6_counterexample :
    localSourceAddr "git::https://example.com/vpc.git" = false ∧
      (moduleWalker (demoEnv (RangeOrder.declared Nat)) "/proj"
        ⟨"vpc", ["vpc"], "git::https://example.com/vpc.git"⟩ (walkerInit [])).1.1.isSome = true ∧
      Diagnostics.HasErrors (moduleWalker (demoEnv (RangeOrder.declared Nat)) "/proj"
        ⟨"vpc", ["vpc"], "git::https://example.com/vpc.git"⟩ (walkerInit [])).1.2.2 = false ∧
      (moduleWalker (demoEnv (RangeOrder.declared Nat)) "/proj"
        ⟨"vpc", ["vpc"], "git::https://example.com/vpc.git"⟩ (walkerInit [])).2.trace =
        [Event.LoadModule ⟨"vpc", ["vpc"], "git::https://example.com/vpc.git"⟩,
          Event.LoadConfigDir "/proj/vpc"] := by
  refine ⟨by decide, by decide, by decide, ?_⟩
  rfl

/-- C7 (as amended): two runs of the collector on the same tree, whatever the
order in which `range` visits the maps in either run, return the same error
and, when that error is nil, lists with the same entries up to order: each is
a permutation of the other. -/
theorem C7_runs_agree_up_to_order (env : Env R O) (ord2 : RangeOrder R) (t : Config R)
    (trace : List (Event R)) :
    (resourceCollector env t trace).err =
        (resourceCollector { env with range := ord2 } t trace).err ∧
      ((resourceCollector env t trace).err = none →
        ((resourceCollector env t trace).allResourcesConfig).Perm
          (resourceCollector { env with range := ord2 } t trace).allResourcesConfig) := by
  by_cases hbad : ∃ r ∈ t.allResources, ∃ e, env.CreateResourceConfig r = .error e
  · obtain ⟨_, _, _, _, _, _, h1, _⟩ := resourceCollector_some_error env t trace hbad
    obtain ⟨_, _, _, _, _, _, h2, _⟩ :=
      resourceCollector_some_error { env with range := ord2 } t trace hbad
    rw [h1, h2]
    simp
  · have hok : ∀ r ∈ t.allResources, ∃ o, env.CreateResourceConfig r = .ok o := by
      intro r hr
      cases h : env.CreateResourceConfig r with
      | ok o => exact ⟨o, rfl⟩
      | error e => exact absurd ⟨r, hr, e, h⟩ hbad
    have h1 := (resourceCollector_all_ok env t trace hok).1
    have h2 := (resourceCollector_all_ok { env with range := ord2 } t trace hok).1
    rw [h1, h2]
    refine ⟨rfl, fun _ => ?_⟩
    exact ((bfsResources_perm env.range t).trans (bfsResources_perm ord2 t).symm).filterMap _

/-- C7, witness: the tree of `/proj` run in declaration order and in the
opposite order. -/
theorem C7_runs_agree_up_to_order_witness :
    (resourceCollector (demoEnv (RangeOrder.declared Nat)) demoTree []).err =
        (resourceCollector
          { demoEnv (RangeOrder.declared Nat) with range := RangeOrder.reversed Nat }
          demoTree []).err ∧
      ((resourceCollector (demoEnv (RangeOrder.declared Nat)) demoTree []).err = none →
        ((resourceCollector (demoEnv (RangeOrder.declared Nat)) demoTree []).allResourcesConfig).Perm
          (resourceCollector
            { demoEnv (RangeOrder.declared Nat) with range := RangeOrder.reversed Nat }
            demoTree []).allResourcesConfig) :=
  C7_runs_agree_up_to_order (demoEnv (RangeOrder.declared Nat)) (RangeOrder.reversed Nat)
    demoTree []

/-- C7, counterexample: the same unchanged directory loaded twice, once with
`range` visiting the maps in declaration order and once in the opposite
order. For `proj`, where every conversion succeeds, the two runs return the
same three entries in different orders; for `half`, where the resource 0 does
not convert, one run returns the converted 1 and the other returns nothing;
and the two children of a root are visited in either order. -/
theorem C7_counterexample :
    LoadIacDir (demoEnv (RangeOrder.declared Nat)) 5 "proj" =
        .ok ⟨[101, 102, 103], none,
          demoProjTrace ++ [Event.CreateResourceConfig 1, Event.CreateResourceConfig 2,
            Event.CreateResourceConfig 3]⟩ ∧
      LoadIacDir (demoEnv (RangeOrder.reversed Nat)) 5 "proj" =
        .ok ⟨[102, 101, 103], none,
          demoProjTrace ++ [Event.CreateResourceConfig 2, Event.CreateResourceConfig 1,
            Event.CreateResourceConfig 3]⟩ ∧
      LoadIacDir (demoEnv (RangeOrder.declared Nat)) 5 "half" =
        .ok ⟨[101], some "failed to create ResourceConfig",
          demoHalfTrace ++ [Event.CreateResourceConfig 1, Event.CreateResourceConfig 0]⟩ ∧
      LoadIacDir (demoEnv (RangeOrder.reversed Nat)) 5 "half" =
        .ok ⟨[], some "failed to create ResourceConfig",
          demoHalfTrace ++ [Event.CreateResourceConfig 0]⟩ ∧
      (resourceCollector (demoEnv (RangeOrder.declared Nat)) demoFork []).allResourcesConfig
        = [101, 102] ∧
      (resourceCollector (demoEnv (RangeOrder.reversed Nat)) demoFork []).allResourcesConfig
        = [102, 101] := by
  refine ⟨LoadIacDir_proj_declared, LoadIacDir_proj_reversed, LoadIacDir_half_declared,
    LoadIacDir_half_reversed, ?_, ?_⟩ <;>
  simp [resourceCollector, bfsLoop, convertAll, demoEnv, demoConvert, demoFork,
    RangeOrder.declared, RangeOrder.reversed, Config.Module, Config.Children]

/-- C8: in the successive invocations of the walker within one call of
`LoadIacDir` (the counter starts at 0; at most 2^63 invocations, the range of
a Go int), the k-th invocation returns the version with segments 1, 0, k,
printed `1.0.k`; these versions are strictly increasing in invocation order
and pairwise distinct, and every invocation advances the counter by one,
whatever the load of the directory returned. -/
theorem C8_version_tags (env : Env R O) (absRootDir : String) (reqs : List ModuleRequest)
    (trace : List (Event R)) (hlen : reqs.length ≤ 2 ^ 63) :
    (walkerRun env absRootDir reqs (walkerInit trace)).1.map (fun r => r.2.1) =
        (List.range reqs.length).map (fun k => some (⟨[1, 0, k]⟩ : Version)) ∧
      (∀ k, Version.String ⟨[1, 0, k]⟩ = "1.0." ++ toString k) ∧
      List.Pairwise Version.lt ((List.range reqs.length).map fun k => (⟨[1, 0, k]⟩ : Version)) ∧
      ((List.range reqs.length).map fun k => (⟨[1, 0, k]⟩ : Version)).Nodup ∧
      (walkerRun env absRootDir reqs (walkerInit trace)).2.versionI =
        wrapInt (reqs.length : Int) ∧
      ∀ req (st : WalkerState R),
        (moduleWalker env absRootDir req st).2.versionI = wrapInt (st.versionI + 1) := by
  have h0 : (walkerInit trace).versionI = wrapInt ((0 : Nat) : Int) := rfl
  have h := walkerRun_versions env absRootDir reqs 0 (walkerInit trace) h0
    (by simpa using hlen)
  refine ⟨by simpa using h.1, Version_String_eq, versions_pairwise _, ?_, by simpa using h.2,
    fun req st => rfl⟩
  refine List.Nodup.map ?_ (List.nodup_range _)
  intro a b hab
  simpa using hab

/-- C8, witness: three invocations, none of which finds its directory. -/
theorem C8_version_tags_witness :
    demoRequests.length ≤ 2 ^ 63 ∧
      ((walkerRun (demoEnv (RangeOrder.declared Nat)) "/proj" demoRequests
          (walkerInit [])).1.map (fun r => r.2.1) =
        (List.range demoRequests.length).map (fun k => some (⟨[1, 0, k]⟩ : Version)) ∧
      (∀ k, Version.String ⟨[1, 0, k]⟩ = "1.0." ++ toString k) ∧
      List.Pairwise Version.lt
        ((List.range demoRequests.length).map fun k => (⟨[1, 0, k]⟩ : Version)) ∧
      ((List.range demoRequests.length).map fun k => (⟨[1, 0, k]⟩ : Version)).Nodup ∧
      (walkerRun (demoEnv (RangeOrder.declared Nat)) "/proj" demoRequests
          (walkerInit [])).2.versionI = wrapInt (demoRequests.length : Int) ∧
      ∀ req (st : WalkerState Nat),
        (moduleWalker (demoEnv (RangeOrder.declared Nat)) "/proj" req st).2.versionI =
          wrapInt (st.versionI + 1)) :=
  ⟨by decide,
    C8_version_tags (demoEnv (RangeOrder.declared Nat)) "/proj" demoRequests [] (by decide)⟩

/-- C9: the directory the walker loads for a request is the left fold of the
file system join over the segments of the dotted path, starting from the
absolute root directory, and it is that directory that is passed to
`LoadConfigDir`, whose module and diagnostics the walker returns. The segments
are those of the path string split on the dot: they are not empty as a list,
none holds a dot, and joined by dots they give the path string back; when the
path of the request is not empty and none of its names holds a dot, they are
the names of the path, in order. The directory is the same for two requests
with the same path, whatever their name, source and walker state. -/
theorem C9_walker_directory (env : Env R O) (absRootDir : String) (req : ModuleRequest)
    (st : WalkerState R) :
    pathToModule env absRootDir req = (Split req.PathString '.').foldl env.Join absRootDir ∧
      (moduleWalker env absRootDir req st).2.trace =
        st.trace ++ [Event.LoadModule req,
          Event.LoadConfigDir ((Split req.PathString '.').foldl env.Join absRootDir)] ∧
      (moduleWalker env absRootDir req st).1.1 =
        (env.LoadConfigDir ((Split req.PathString '.').foldl env.Join absRootDir)).1 ∧
      (moduleWalker env absRootDir req st).1.2.2 =
        (env.LoadConfigDir ((Split req.PathString '.').foldl env.Join absRootDir)).2 ∧
      (Split req.PathString '.' ≠ [] ∧ (∀ seg ∈ Split req.PathString '.', '.' ∉ seg.data) ∧
        ".".intercalate (Split req.PathString '.') = req.PathString) ∧
      (req.Path ≠ [] → (∀ name ∈ req.Path, '.' ∉ name.data) →
        Split req.PathString '.' = req.Path ∧
          pathToModule env absRootDir req = req.Path.foldl env.Join absRootDir ∧
          (moduleWalker env absRootDir req st).2.trace =
            st.trace ++ [Event.LoadModule req,
              Event.LoadConfigDir (req.Path.foldl env.Join absRootDir)] ∧
          (moduleWalker env absRootDir req st).1.1 =
            (env.LoadConfigDir (req.Path.foldl env.Join absRootDir)).1) ∧
      (∀ (req1 : ModuleRequest) (st1 : WalkerState R), req1.Path = req.Path →
        pathToModule env absRootDir req1 = pathToModule env absRootDir req ∧
          (moduleWalker env absRootDir req1 st1).1.1 =
            (moduleWalker env absRootDir req st).1.1) := by
  have h : pathToModule env absRootDir req =
      (Split req.PathString '.').foldl env.Join absRootDir := joinSubPaths_eq_foldl _ _ _
  refine ⟨h, by simp [moduleWalker, h], by simp [moduleWalker, h], by simp [moduleWalker, h],
    Split_spec req.PathString, ?_, ?_⟩
  · intro hne hdot
    have hs := Split_PathString req hne hdot
    rw [hs] at h
    exact ⟨hs, h, by simp [moduleWalker, h], by simp [moduleWalker, h]⟩
  · intro req1 st1 hp
    have h1 : pathToModule env absRootDir req1 = pathToModule env absRootDir req := by
      simp only [pathToModule, ModuleRequest.PathString, hp]
    exact ⟨h1, by simp [moduleWalker, h1]⟩

/-- C9, witness: the request for the call `c` declared inside the module `b`
of `/proj`: the walker loads `/proj/b/c`. -/
theorem C9_walker_directory_witness :
    ((⟨"c", ["b", "c"], "./c"⟩ : ModuleRequest).Path ≠ [] ∧
      (∀ name ∈ (⟨"c", ["b", "c"], "./c"⟩ : ModuleRequest).Path, '.' ∉ name.data)) ∧
      (Split (⟨"c", ["b", "c"], "./c"⟩ : ModuleRequest).PathString '.' = ["b", "c"] ∧
        pathToModule (demoEnv (RangeOrder.declared Nat)) "/proj" ⟨"c", ["b", "c"], "./c"⟩ =
          "/proj/b/c" ∧
        (moduleWalker (demoEnv (RangeOrder.declared Nat)) "/proj" ⟨"c", ["b", "c"], "./c"⟩
            (walkerInit [])).2.trace =
          [] ++ [Event.LoadModule ⟨"c", ["b", "c"], "./c"⟩, Event.LoadConfigDir "/proj/b/c"] ∧
        (moduleWalker (demoEnv (RangeOrder.declared Nat)) "/proj" ⟨"c", ["b", "c"], "./c"⟩
            (walkerInit [])).1.1 =
          ((demoEnv (RangeOrder.declared Nat)).LoadConfigDir "/proj/b/c").1) :=
  ⟨⟨by decide, by decide⟩,
    (C9_walker_directory (demoEnv (RangeOrder.declared Nat)) "/proj" ⟨"c", ["b", "c"], "./c"⟩
      (walkerInit [])).2.2.2.2.2.1 (by decide) (by decide)⟩

end

end Tfv12
